import Mathlib

/-!
Verification development for the chess subsystem of the Chat_play_room
repository.  Two engines are embedded:

* `Chess` — the flat-64-square engine of `src/lib/chessEngine.ts`, together
  with the minimax search of `src/workers/aiWorker.ts` (namespace `AiWorker`).
* `ChessGame` — the 2D-coordinate server engine (class `ChessGame`).

Modelling conventions (shallow embedding of the TypeScript source):

* JavaScript numbers used as square indices / coordinates become `Int`
  (piece deltas are negative); `Math.floor(x / 8)` becomes Lean `Int`
  division `/` (Euclidean, which agrees with `Math.floor` for the positive
  divisor 8) and the JS remainder `%` becomes `Int.tmod` (truncated, which
  agrees with JS on all inputs).
* In-place mutation of the game state becomes explicit state passing:
  `makeMove` returns the new state, `undoMove` returns the restored state.
* `captured?: Piece | null` becomes `Option Piece`: every use in the source
  is a truthiness test, which cannot distinguish `null` from `undefined`.
* A TS array of 64 squares becomes `List (Option Piece)`; reading an index
  outside the array yields `undefined` in JS, modelled by `none`.  Writing
  outside `0..63` would extend a JS array; the embedding leaves the list
  unchanged, which is observationally equal for all inputs reachable in the
  claims below (all generated moves stay on the board).
* The unchecked cast `ch.toLowerCase() as PieceType` in the FEN decoder
  means a piece's type is, at runtime, an arbitrary character; the
  embedding therefore gives `Piece.type` the type `Char`.
* `while` loops over sliding rays become fuel-indexed recursion; the fuel
  (100, resp. 7 for the server engine whose loop is explicitly bounded by
  `i < 8`) exceeds the maximal number of iterations the JS loop can make,
  so the semantics agree.
* The TS field `from` of `Move` is the Lean keyword `from`; it is renamed
  `fromSq` (server engine: `fromC` / `toC`).
-/

namespace Chess

inductive Color where
  | w
  | b
deriving DecidableEq, Repr

def Color.other : Color → Color
  | .w => .b
  | .b => .w

structure Piece where
  type : Char
  color : Color
deriving DecidableEq, Repr

/-- `Move` from chessEngine.ts.  `fromSq`/`toSq` are the TS fields
`from`/`to` (renamed: `from` is a Lean keyword). -/
structure Move where
  fromSq : Int
  toSq : Int
  piece : Piece
  captured : Option Piece := none
  promotion : Option Char := none
  isEnPassant : Bool := false
  isCastling : Bool := false
deriving DecidableEq, Repr

structure CastlingRights where
  wks : Bool
  wqs : Bool
  bks : Bool
  bqs : Bool
deriving DecidableEq, Repr

/-- One entry of `GameState.history` (the undo record pushed by `makeMove`). -/
structure HistEntry where
  move : Move
  castling : CastlingRights
  enPassant : Option Int
  halfmoveClock : Nat
deriving DecidableEq, Repr

structure GameState where
  board : List (Option Piece)
  turn : Color
  castling : CastlingRights
  enPassant : Option Int
  halfmoveClock : Nat
  fullmoveNumber : Int
  history : List HistEntry
deriving DecidableEq, Repr

/-- JS `board[sq]` on a 64-element array: out-of-range reads give
`undefined` (modelled `none`). -/
def boardGet (b : List (Option Piece)) (i : Int) : Option Piece :=
  if i < 0 then none else b.getD i.toNat none

/-- JS `board[sq] = v` for the in-range indices used by the engine. -/
def boardSet (b : List (Option Piece)) (i : Int) (v : Option Piece) : List (Option Piece) :=
  if i < 0 then b else b.set i.toNat v

def onBoard (sq : Int) : Bool := 0 ≤ sq ∧ sq < 64

def fileOf (sq : Int) : Int := sq.tmod 8

def rankOf (sq : Int) : Int := sq / 8

def makeEmptyBoard : List (Option Piece) := List.replicate 64 none

/-- `'abcdefgh'[file] + rank.toString()` for `file, rank` produced from a
square in `0..63`. -/
def squareToAlgebraic (sq : Int) : List Char :=
  let file := fileOf sq
  let rank := rankOf sq + 1
  [(['a','b','c','d','e','f','g','h'].getD file.toNat 'a'), Char.ofNat (48 + rank.toNat)]

/-- `'abcdefgh'.indexOf(s[0])` and `Number(s[1]) - 1`; only ever applied to
well-formed two-character algebraic names in the claims below. -/
def algebraicToSquare (s : List Char) : Int :=
  match s with
  | c :: d :: _ =>
      let file : Int := (['a','b','c','d','e','f','g','h'].indexOf c : Nat)
      let fileIdx : Int := if c ∈ (['a','b','c','d','e','f','g','h'] : List Char) then file else -1
      let rank : Int := (d.toNat : Int) - 48 - 1
      rank * 8 + fileIdx
  | _ => -1000

def isDigitChar (c : Char) : Bool := 48 ≤ c.toNat ∧ c.toNat ≤ 57

def digitVal (c : Char) : Nat := c.toNat - 48

def digitChar (n : Nat) : Char := Char.ofNat (48 + n)

/-- Decimal digits with an explicit recursion bound: dividing by ten needs
at most `fuel` steps when the argument is at most `fuel`. -/
def natDigitsF : Nat → Nat → List Char
  | 0, n => [digitChar (n % 10)]
  | fuel + 1, n =>
      if n < 10 then [digitChar n] else natDigitsF fuel (n / 10) ++ [digitChar (n % 10)]

/-- Decimal digits of a natural number, most significant first (the output
of the JS template interpolation of a nonnegative number); the number
itself bounds the recursion depth. -/
def natDigits (n : Nat) : List Char := natDigitsF n n

/-- Digits of a JS number that is a nonnegative integer or, defensively, a
negative one. -/
def intDigits (n : Int) : List Char :=
  if n < 0 then '-' :: natDigits (-n).toNat else natDigits n.toNat

/-- Decimal parse of a digit string (the behaviour of JS `Number` on the
strings occurring in the claims; junk input differs — JS gives `NaN` — but
no claim decodes a malformed counter field). -/
def parseNat (l : List Char) : Nat := l.foldl (fun a c => a * 10 + digitVal c) 0

def parseIntJS (l : List Char) : Int :=
  match l with
  | '-' :: rest => -(parseNat rest : Int)
  | _ => (parseNat l : Int)

/-- `String.prototype.split(sep)` for a one-character separator. -/
def splitChar (c : Char) : List Char → List (List Char)
  | [] => [[]]
  | x :: xs =>
      if x = c then [] :: splitChar c xs
      else
        match splitChar c xs with
        | [] => [[x]]
        | y :: ys => (x :: y) :: ys

/-- `Array.prototype.join(sep)` for a one-character separator. -/
def joinChar (c : Char) : List (List Char) → List Char
  | [] => []
  | [x] => x
  | x :: xs => x ++ c :: joinChar c xs

def initialFEN : String := "rnbqkbnr/pppppppp/8/8/8/8/PPPPPPPP/RNBQKBNR w KQkq - 0 1"

/-- Decoding one rank row of a FEN board field: the inner `for (const ch of
row)` loop of `fenToGameState`, with its running `file` counter. -/
def decodeRowFold (r : Nat) : List Char → Nat → List (Option Piece) → List (Option Piece)
  | [], _, b => b
  | ch :: rest, file, b =>
      if isDigitChar ch then decodeRowFold r rest (file + digitVal ch) b
      else
        let color : Color := if ch = ch.toUpper then .w else .b
        decodeRowFold r rest (file + 1) (b.set (r * 8 + file) (some ⟨ch.toLower, color⟩))

/-- The outer `for (let r = 0; r < 8; r++)` loop of `fenToGameState`.
`rows[7 - r]` being `undefined` (fewer than 8 ranks) makes the JS iteration
throw a `TypeError`, modelled as an error result. -/
def decodeRanks (rows : List (List Char)) : List Nat → List (Option Piece) →
    Except String (List (Option Piece))
  | [], b => .ok b
  | r :: rest, b =>
      match rows[7 - r]? with
      | none => .error "TypeError: row is undefined"
      | some row => decodeRanks rows rest (decodeRowFold r row 0 b)

def fenToGameState (fen : String) : Except String GameState :=
  let parts := splitChar ' ' fen.data
  if parts.length < 4 then .error "Invalid FEN"
  else
    let rows := splitChar '/' (parts.getD 0 [])
    match decodeRanks rows (List.range 8) makeEmptyBoard with
    | .error e => .error e
    | .ok board =>
        let turn : Color := if parts.getD 1 [] = ['w'] then .w else .b
        let c2 := parts.getD 2 []
        let castling : CastlingRights :=
          ⟨'K' ∈ c2, 'Q' ∈ c2, 'k' ∈ c2, 'q' ∈ c2⟩
        let enPassant : Option Int :=
          if parts.getD 3 [] = ['-'] then none else some (algebraicToSquare (parts.getD 3 []))
        let p4 := parts.getD 4 []
        let halfmoveClock : Nat := if p4 = [] then 0 else parseNat p4
        let p5 := parts.getD 5 []
        let fullmoveNumber : Int := if p5 = [] then 1 else parseIntJS p5
        .ok ⟨board, turn, castling, enPassant, halfmoveClock, fullmoveNumber, []⟩

def pieceChar (p : Piece) : Char :=
  if p.color = .w then p.type.toUpper else p.type.toLower

/-- The row-string construction of `gameStateToFEN` with its running empty
counter. -/
def encodeRankAux : List (Option Piece) → Nat → List Char
  | [], empty => if 0 < empty then [digitChar empty] else []
  | none :: rest, empty => encodeRankAux rest (empty + 1)
  | some p :: rest, empty =>
      (if 0 < empty then [digitChar empty] else []) ++ pieceChar p :: encodeRankAux rest 0

def rowCells (b : List (Option Piece)) (r : Nat) : List (Option Piece) :=
  (List.range 8).map fun f => boardGet b (r * 8 + f)

def castlePartOf (c : CastlingRights) : List Char :=
  let s := (if c.wks then ['K'] else []) ++ (if c.wqs then ['Q'] else [])
    ++ (if c.bks then ['k'] else []) ++ (if c.bqs then ['q'] else [])
  if s = [] then ['-'] else s

def gameStateToFENChars (gs : GameState) : List Char :=
  let rows := (List.range 8).map fun i => encodeRankAux (rowCells gs.board (7 - i)) 0
  let boardPart := joinChar '/' rows
  let turnPart : List Char := if gs.turn = .w then ['w'] else ['b']
  let epPart : List Char :=
    match gs.enPassant with
    | none => ['-']
    | some sq => squareToAlgebraic sq
  boardPart ++ ' ' :: turnPart ++ ' ' :: castlePartOf gs.castling ++ ' ' :: epPart
    ++ ' ' :: natDigits gs.halfmoveClock ++ ' ' :: intDigits gs.fullmoveNumber

def gameStateToFEN (gs : GameState) : String := ⟨gameStateToFENChars gs⟩

/-- `generatePawnMoves` (the moves pushed for the pawn on `sq`), in push
order: forward moves (promotions or single+double), then the two capture
directions. -/
def generatePawnMoves (gs : GameState) (sq : Int) (p : Piece) : List Move :=
  let dir : Int := if p.color = .w then 8 else -8
  let startRank : Int := if p.color = .w then 1 else 6
  let promotionRank : Int := if p.color = .w then 7 else 0
  let one := sq + dir
  let pushes : List Move :=
    if onBoard one ∧ boardGet gs.board one = none then
      if rankOf one = promotionRank then
        (['q','r','b','n'] : List Char).map fun pr =>
          { fromSq := sq, toSq := one, piece := p, promotion := some pr }
      else
        { fromSq := sq, toSq := one, piece := p } ::
          (if rankOf sq = startRank then
            let two := sq + 2 * dir
            if onBoard two ∧ boardGet gs.board two = none then
              [{ fromSq := sq, toSq := two, piece := p }]
            else []
          else [])
    else []
  let caps : List Move :=
    ((if p.color = .w then [7, 9] else [-7, -9] : List Int)).flatMap fun d =>
      let tSq := sq + d
      if ¬ onBoard tSq then []
      else if (fileOf tSq - fileOf sq).natAbs ≠ 1 then []
      else
        let epCase : List Move :=
          match gs.enPassant with
          | some e =>
              if tSq = e then
                let capSq := if p.color = .w then tSq - 8 else tSq + 8
                match boardGet gs.board capSq with
                | some cp =>
                    if cp.type = 'p' ∧ cp.color ≠ p.color then
                      [{ fromSq := sq, toSq := tSq, piece := p, captured := some cp,
                         isEnPassant := true }]
                    else []
                | none => []
              else []
          | none => []
        match boardGet gs.board tSq with
        | some target =>
            if target.color ≠ p.color then
              if rankOf tSq = promotionRank then
                (['q','r','b','n'] : List Char).map fun pr =>
                  { fromSq := sq, toSq := tSq, piece := p, captured := some target,
                    promotion := some pr }
              else
                [{ fromSq := sq, toSq := tSq, piece := p, captured := some target }]
            else epCase
        | none => epCase
  pushes ++ caps

def knightDeltas : List Int := [17, 15, 10, 6, -6, -10, -15, -17]

def generateKnightMoves (gs : GameState) (sq : Int) (p : Piece) : List Move :=
  knightDeltas.flatMap fun d =>
    let tSq := sq + d
    if ¬ onBoard tSq then []
    else if 2 < (fileOf sq - fileOf tSq).natAbs then []
    else
      match boardGet gs.board tSq with
      | none => [{ fromSq := sq, toSq := tSq, piece := p, captured := none }]
      | some target =>
          if target.color ≠ p.color then
            [{ fromSq := sq, toSq := tSq, piece := p, captured := some target }]
          else []

/-- One sliding ray of `generateSlidingMoves`: the inner `while (onBoard(to))` loop.  `checkW` records whether the TS code applies the
file-wrapping check for this direction (it does for `e`/`w` and the four
diagonals, not for `n`/`s`).  Fuel 100 exceeds the number of iterations the
JS loop can perform (the position moves monotonically by `delta ≠ 0` and
leaves `0..63` after at most 64 steps). -/
def genRay (gs : GameState) (sq0 : Int) (p : Piece) (delta : Int) (checkW : Bool) :
    Int → Int → Nat → List Move
  | _, _, 0 => []
  | tSq, lastFile, fuel + 1 =>
      if ¬ onBoard tSq then []
      else
        let currentFile := fileOf tSq
        if checkW ∧ (currentFile - lastFile).natAbs ≠ 1 then []
        else
          match boardGet gs.board tSq with
          | none =>
              { fromSq := sq0, toSq := tSq, piece := p } ::
                genRay gs sq0 p delta checkW (tSq + delta) currentFile fuel
          | some target =>
              if target.color ≠ p.color then
                [{ fromSq := sq0, toSq := tSq, piece := p, captured := some target }]
              else []

/-- Directions with their wrap-check flag, in the TS iteration order for
each piece type. -/
def bishopDirs : List (Int × Bool) := [(9, true), (7, true), (-7, true), (-9, true)]

def rookDirs : List (Int × Bool) := [(8, false), (-8, false), (1, true), (-1, true)]

def queenDirs : List (Int × Bool) := rookDirs ++ bishopDirs

def generateSlidingMoves (gs : GameState) (sq : Int) (p : Piece)
    (dirs : List (Int × Bool)) : List Move :=
  dirs.flatMap fun dc => genRay gs sq p dc.1 dc.2 (sq + dc.1) (fileOf sq) 100

def kingDeltas : List Int := [1, -1, 8, -8, 9, 7, -7, -9]

def generateKingMoves (gs : GameState) (sq : Int) (p : Piece) : List Move :=
  let steps : List Move :=
    kingDeltas.flatMap fun d =>
      let tSq := sq + d
      if ¬ onBoard tSq then []
      else if 1 < (fileOf sq - fileOf tSq).natAbs then []
      else
        match boardGet gs.board tSq with
        | none => [{ fromSq := sq, toSq := tSq, piece := p, captured := none }]
        | some target =>
            if target.color ≠ p.color then
              [{ fromSq := sq, toSq := tSq, piece := p, captured := some target }]
            else []
  let castles : List Move :=
    if p.color = .w then
      (if gs.castling.wks ∧ boardGet gs.board 5 = none ∧ boardGet gs.board 6 = none then
        [{ fromSq := sq, toSq := 6, piece := p, isCastling := true }]
      else []) ++
      (if gs.castling.wqs ∧ boardGet gs.board 1 = none ∧ boardGet gs.board 2 = none ∧
          boardGet gs.board 3 = none then
        [{ fromSq := sq, toSq := 2, piece := p, isCastling := true }]
      else [])
    else
      (if gs.castling.bks ∧ boardGet gs.board 61 = none ∧ boardGet gs.board 62 = none then
        [{ fromSq := sq, toSq := 62, piece := p, isCastling := true }]
      else []) ++
      (if gs.castling.bqs ∧ boardGet gs.board 57 = none ∧ boardGet gs.board 58 = none ∧
          boardGet gs.board 59 = none then
        [{ fromSq := sq, toSq := 58, piece := p, isCastling := true }]
      else [])
  steps ++ castles

def movesFromSquare (gs : GameState) (sq : Int) : List Move :=
  match boardGet gs.board sq with
  | none => []
  | some p =>
      if p.color ≠ gs.turn then []
      else if p.type = 'p' then generatePawnMoves gs sq p
      else if p.type = 'n' then generateKnightMoves gs sq p
      else if p.type = 'b' then generateSlidingMoves gs sq p bishopDirs
      else if p.type = 'r' then generateSlidingMoves gs sq p rookDirs
      else if p.type = 'q' then generateSlidingMoves gs sq p queenDirs
      else if p.type = 'k' then generateKingMoves gs sq p
      else []

def generatePseudoLegalMoves (gs : GameState) : List Move :=
  (List.range 64).flatMap fun sq => movesFromSquare gs (sq : Int)

/-- `makeMove`, as a pure state transformer.  The TS function pushes the
undo record first (holding a reference to `move`, whose `captured` field it
then sets), then performs the board updates in source order. -/
def makeMove (gs : GameState) (move : Move) : GameState :=
  let capSq : Int := if move.piece.color = .w then move.toSq - 8 else move.toSq + 8
  let captured : Option Piece :=
    if move.isEnPassant then boardGet gs.board capSq else boardGet gs.board move.toSq
  let move' : Move := { move with captured := captured }
  let hist' := gs.history ++ [⟨move', gs.castling, gs.enPassant, gs.halfmoveClock⟩]
  let b1 := if move.isEnPassant then boardSet gs.board capSq none else gs.board
  let placed : Piece :=
    match move.promotion with
    | some pr => ⟨pr, move.piece.color⟩
    | none => move.piece
  let b2 := boardSet b1 move.toSq (some placed)
  let b3 := boardSet b2 move.fromSq none
  let cr1 : CastlingRights :=
    if move.piece.type = 'k' then
      if move.piece.color = .w then { gs.castling with wks := false, wqs := false }
      else { gs.castling with bks := false, bqs := false }
    else gs.castling
  let b4 :=
    if move.piece.type = 'k' ∧ move.isCastling then
      if move.toSq = 6 then boardSet (boardSet b3 5 (boardGet b3 7)) 7 none
      else if move.toSq = 2 then boardSet (boardSet b3 3 (boardGet b3 0)) 0 none
      else if move.toSq = 62 then boardSet (boardSet b3 61 (boardGet b3 63)) 63 none
      else if move.toSq = 58 then boardSet (boardSet b3 59 (boardGet b3 56)) 56 none
      else b3
    else b3
  let cr2 : CastlingRights :=
    if move.piece.type = 'r' then
      let cA := if move.fromSq = 0 then { cr1 with wqs := false } else cr1
      let cB := if move.fromSq = 7 then { cA with wks := false } else cA
      let cC := if move.fromSq = 56 then { cB with bqs := false } else cB
      if move.fromSq = 63 then { cC with bks := false } else cC
    else cr1
  let cr3 : CastlingRights :=
    match captured with
    | some c =>
        if c.type = 'r' then
          let cA := if move.toSq = 0 then { cr2 with wqs := false } else cr2
          let cB := if move.toSq = 7 then { cA with wks := false } else cA
          let cC := if move.toSq = 56 then { cB with bqs := false } else cB
          if move.toSq = 63 then { cC with bks := false } else cC
        else cr2
    | none => cr2
  let ep' : Option Int :=
    if move.piece.type = 'p' ∧ (move.toSq - move.fromSq).natAbs = 16 then
      some ((move.fromSq + move.toSq) / 2)
    else none
  let hm' : Nat :=
    if move.piece.type = 'p' ∨ captured.isSome then 0 else gs.halfmoveClock + 1
  let fm' : Int := if gs.turn = .b then gs.fullmoveNumber + 1 else gs.fullmoveNumber
  { board := b4, turn := gs.turn.other, castling := cr3, enPassant := ep',
    halfmoveClock := hm', fullmoveNumber := fm', history := hist' }

/-- `undoMove`, as a pure state transformer; a no-op when the history is
empty (`history.pop()` returns `undefined`). -/
def undoMove (gs : GameState) : GameState :=
  match gs.history.getLast? with
  | none => gs
  | some last =>
      let move := last.move
      let turn' := gs.turn.other
      let fm' : Int := if turn' = .b then gs.fullmoveNumber - 1 else gs.fullmoveNumber
      let b1 := boardSet gs.board move.fromSq (some move.piece)
      let b2 :=
        if move.isEnPassant then
          let capSq : Int := if move.piece.color = .w then move.toSq - 8 else move.toSq + 8
          boardSet (boardSet b1 capSq move.captured) move.toSq none
        else boardSet b1 move.toSq move.captured
      let b3 :=
        if move.isCastling then
          let c1 := if move.toSq = 6 then boardSet (boardSet b2 7 (boardGet b2 5)) 5 none else b2
          let c2 := if move.toSq = 2 then boardSet (boardSet c1 0 (boardGet c1 3)) 3 none else c1
          let c3 := if move.toSq = 62 then boardSet (boardSet c2 63 (boardGet c2 61)) 61 none else c2
          if move.toSq = 58 then boardSet (boardSet c3 56 (boardGet c3 59)) 59 none else c3
        else b2
      { board := b3, turn := turn', castling := last.castling, enPassant := last.enPassant,
        halfmoveClock := last.halfmoveClock, fullmoveNumber := fm',
        history := gs.history.dropLast }

/-- One sliding-attack ray of `isSquareAttacked`: the inner `while
(onBoard (from))` loop; `prior` is the previous probe (`from - d` in the
source), used for the wrapping check. -/
def detRay (gs : GameState) (byColor : Color) (d : Int) (t : Char) :
    Int → Int → Nat → Bool
  | _, _, 0 => false
  | prior, cur, fuel + 1 =>
      if ¬ onBoard cur then false
      else
        let fileDiff := (fileOf cur - fileOf prior).natAbs
        let rankDiff := (rankOf cur - rankOf prior).natAbs
        if 1 < fileDiff ∨ 1 < rankDiff then false
        else
          match boardGet gs.board cur with
          | some p => p.color = byColor ∧ (p.type = t ∨ p.type = 'q')
          | none => detRay gs byColor d t cur (cur + d) fuel

def slideDirTypes : List (Int × Char) :=
  [(8, 'r'), (-8, 'r'), (1, 'r'), (-1, 'r'), (9, 'b'), (7, 'b'), (-7, 'b'), (-9, 'b')]

def isSquareAttacked (gs : GameState) (sq : Int) (byColor : Color) : Bool :=
  let pawnFrom : List Int := if byColor = .w then [sq - 7, sq - 9] else [sq + 7, sq + 9]
  let pawnHit := pawnFrom.any fun f =>
    onBoard f ∧ (fileOf sq - fileOf f).natAbs = 1 ∧ boardGet gs.board f = some ⟨'p', byColor⟩
  let knightHit := knightDeltas.any fun d =>
    let f := sq + d
    onBoard f ∧ (fileOf sq - fileOf f).natAbs ≤ 2 ∧ boardGet gs.board f = some ⟨'n', byColor⟩
  let slideHit := slideDirTypes.any fun dt => detRay gs byColor dt.1 dt.2 sq (sq + dt.1) 100
  let kingHit := kingDeltas.any fun d =>
    let f := sq + d
    onBoard f ∧ (fileOf sq - fileOf f).natAbs ≤ 1 ∧ boardGet gs.board f = some ⟨'k', byColor⟩
  pawnHit || knightHit || slideHit || kingHit

def findKingSquare (gs : GameState) (color : Color) : Option Int :=
  ((List.range 64).find? fun i => boardGet gs.board (i : Int) = some ⟨'k', color⟩).map
    fun i => (i : Int)

def inCheck (gs : GameState) (color : Color) : Bool :=
  match findKingSquare gs color with
  | none => false
  | some kingSq => isSquareAttacked gs kingSq color.other

def castlePath (tSq : Int) : List Int :=
  if tSq = 6 then [4, 5, 6]
  else if tSq = 2 then [4, 3, 2]
  else if tSq = 62 then [60, 61, 62]
  else [60, 59, 58]

def generateLegalMoves (gs : GameState) : List Move :=
  (generatePseudoLegalMoves gs).filter fun mv =>
    (if mv.isCastling then
      (castlePath mv.toSq).all fun s => ¬ isSquareAttacked gs s gs.turn.other
    else true) ∧ ¬ inCheck (makeMove gs mv) gs.turn

structure Status where
  check : Bool
  checkmate : Bool
  stalemate : Bool
  draw : Bool
deriving DecidableEq, Repr

def gameStatus (gs : GameState) : Status :=
  let legal := generateLegalMoves gs
  let check := inCheck gs gs.turn
  if legal.length = 0 then
    if check then ⟨true, true, false, false⟩ else ⟨false, false, true, true⟩
  else ⟨check, false, false, false⟩

end Chess

namespace AiWorker

open Chess

/-- `pieceValues` of aiWorker.ts.  A type outside the table gives JS
`undefined`; no claim evaluates such a board, the default 0 is arbitrary. -/
def pieceValue (t : Char) : Int :=
  if t = 'p' then 100
  else if t = 'n' then 320
  else if t = 'b' then 330
  else if t = 'r' then 500
  else if t = 'q' then 900
  else if t = 'k' then 20000
  else 0

def evaluate (gs : GameState) : Int :=
  gs.board.foldl
    (fun score c =>
      match c with
      | none => score
      | some p => if p.color = .w then score + pieceValue p.type else score - pieceValue p.type)
    0

/-- `Infinity` of the search.  The search only compares values and takes
max/min of them, and every finite evaluation is bounded by `64 * 20000`,
so any constant above that bound gives the same comparisons as IEEE
infinity. -/
def INF : Int := 1000000000

/-- The stable captures-first sort `moves.sort((a, b) => (b.captured ? 10 :
0) - (a.captured ? 10 : 0))`: with only two key values a stable sort is
exactly the stable partition. -/
def sortCaptures (l : List Move) : List Move :=
  l.filter (fun m => m.captured.isSome) ++ l.filter (fun m => ¬ m.captured.isSome)

/-- The fold state of the alpha–beta loops: current best value, the moving
bound, and whether the `break` fired. -/
structure LoopAcc where
  value : Int
  bound : Int
  done : Bool

/-- `minimax` of aiWorker.ts; the `for ... break` loops become folds whose
accumulator carries the `done` flag. -/
def minimax : Nat → GameState → Int → Int → Bool → Int
  | 0, gs, _, _, isMax =>
      let status := gameStatus gs
      if status.checkmate then (if isMax then -INF else INF)
      else if status.stalemate ∨ status.draw then 0
      else evaluate gs
  | depth + 1, gs, alpha, beta, isMax =>
      let status := gameStatus gs
      if status.checkmate then (if isMax then -INF else INF)
      else if status.stalemate ∨ status.draw then 0
      else
        let moves := sortCaptures (generateLegalMoves gs)
        if isMax then
          (moves.foldl
            (fun (acc : LoopAcc) m =>
              if acc.done then acc
              else
                let e := minimax depth (makeMove gs m) acc.bound beta false
                let v := max acc.value e
                let a := max acc.bound e
                ⟨v, a, beta ≤ a⟩)
            ⟨-INF, alpha, false⟩).value
        else
          (moves.foldl
            (fun (acc : LoopAcc) m =>
              if acc.done then acc
              else
                let e := minimax depth (makeMove gs m) alpha acc.bound true
                let v := min acc.value e
                let b := min acc.bound e
                ⟨v, b, b ≤ alpha⟩)
            ⟨INF, beta, false⟩).value

/-- The root search of the worker's `onmessage` handler: decode the FEN,
return `null` if no legal move exists, otherwise scan the legal moves with
a strict improvement test against ±Infinity.  Each iteration re-decodes the
FEN (`fenToGameState(fen)`), which in the pure embedding is the same state. -/
def bestMove (fen : String) (depth : Nat) (color : Color) : Option Move :=
  match fenToGameState fen with
  | .error _ => none
  | .ok gs =>
      let moves := generateLegalMoves gs
      if moves.length = 0 then none
      else
        let isMax := color = .w
        (moves.foldl
          (fun (acc : Option Move × Int) m =>
            let tempState := makeMove gs m
            let v := minimax (depth - 1) tempState (-INF) INF (¬ isMax)
            if isMax then (if acc.2 < v then (some m, v) else acc)
            else (if v < acc.2 then (some m, v) else acc))
          (none, if isMax then -INF else INF)).1

end AiWorker


namespace ChessGame

/-- Server-engine piece types (`ChessPieceType`). -/
inductive PieceT where
  | pawn
  | knight
  | bishop
  | rook
  | queen
  | king
deriving DecidableEq, Repr

inductive SColor where
  | white
  | black
deriving DecidableEq, Repr

def SColor.getOpponentColor : SColor → SColor
  | .white => .black
  | .black => .white

/-- `ChessPiece` without the `id` field: the uuid is used by the UI only
and never read by any rule, so it is omitted from the embedding. -/
structure SPiece where
  ptype : PieceT
  color : SColor
  hasMoved : Bool
deriving DecidableEq, Repr

structure Coord where
  x : Int
  y : Int
deriving DecidableEq, Repr

inductive CastleSide where
  | king
  | queen
deriving DecidableEq, Repr

/-- `ChessMove` without `pieceId` (never read by any rule). -/
structure SMove where
  fromC : Coord
  toC : Coord
  capture : Option SPiece := none
  promotion : Option PieceT := none
  isEnPassant : Bool := false
  isCastle : Option CastleSide := none
deriving DecidableEq, Repr

structure SCastlingRights where
  whiteKingSide : Bool
  whiteQueenSide : Bool
  blackKingSide : Bool
  blackQueenSide : Bool
deriving DecidableEq, Repr

/-- `ChessGameState`; `players` is flattened to two fields, and the FEN
strings are kept as character lists. -/
structure SGameState where
  board : List (List (Option SPiece))
  sideToMove : SColor
  castlingRights : SCastlingRights
  enPassantSquare : Option Coord
  halfmoveClock : Nat
  fullmoveNumber : Nat
  history : List (List Char)
  playersWhite : String
  playersBlack : String
  fen : List Char
  gameOver : Bool
  winner : Option String
  check : Bool
  checkmate : Bool
  stalemate : Bool
  draw : Bool
  lastMove : Option SMove := none
deriving DecidableEq, Repr

def isValidPos (pos : Coord) : Bool :=
  0 ≤ pos.x ∧ pos.x < 8 ∧ 0 ≤ pos.y ∧ pos.y < 8

/-- JS `board[y][x]`; every unguarded access in the source is at a valid
position, so bounds failures map to `none`. -/
def getB (b : List (List (Option SPiece))) (pos : Coord) : Option SPiece :=
  if pos.y < 0 ∨ pos.x < 0 then none
  else (b.getD pos.y.toNat []).getD pos.x.toNat none

def setB (b : List (List (Option SPiece))) (pos : Coord) (v : Option SPiece) :
    List (List (Option SPiece)) :=
  if pos.y < 0 ∨ pos.x < 0 then b
  else b.set pos.y.toNat ((b.getD pos.y.toNat []).set pos.x.toNat v)

def backRank : List PieceT := [.rook, .knight, .bishop, .queen, .king, .bishop, .knight, .rook]

def createInitialBoard : List (List (Option SPiece)) :=
  [backRank.map (fun t => some ⟨t, .black, false⟩),
   List.replicate 8 (some ⟨.pawn, .black, false⟩),
   List.replicate 8 none, List.replicate 8 none,
   List.replicate 8 none, List.replicate 8 none,
   List.replicate 8 (some ⟨.pawn, .white, false⟩),
   backRank.map (fun t => some ⟨t, .white, false⟩)]

def initializeGame (whitePlayerId blackPlayerId : String) : SGameState :=
  { board := createInitialBoard
    sideToMove := .white
    castlingRights := ⟨true, true, true, true⟩
    enPassantSquare := none
    halfmoveClock := 0
    fullmoveNumber := 1
    history := []
    playersWhite := whitePlayerId
    playersBlack := blackPlayerId
    fen := "rnbqkbnr/pppppppp/8/8/8/8/PPPPPPPP/RNBQKBNR w KQkq - 0 1".data
    gameOver := false
    winner := none
    check := false
    checkmate := false
    stalemate := false
    draw := false }

def addPromotionMoves (fromC toC : Coord) (capture : Option SPiece) : List SMove :=
  ([.queen, .rook, .bishop, .knight] : List PieceT).map fun t =>
    { fromC := fromC, toC := toC, capture := capture, promotion := some t }

def generatePawnMoves (state : SGameState) (fromC : Coord) (piece : SPiece) : List SMove :=
  let direction : Int := if piece.color = .white then -1 else 1
  let startRank : Int := if piece.color = .white then 6 else 1
  let promotionRank : Int := if piece.color = .white then 0 else 7
  let to1 : Coord := ⟨fromC.x, fromC.y + direction⟩
  let forward : List SMove :=
    if isValidPos to1 ∧ getB state.board to1 = none then
      if to1.y = promotionRank then addPromotionMoves fromC to1 none
      else
        { fromC := fromC, toC := to1 } ::
          (if fromC.y = startRank then
            let to2 : Coord := ⟨fromC.x, fromC.y + direction * 2⟩
            if getB state.board to2 = none then [{ fromC := fromC, toC := to2 }] else []
          else [])
    else []
  let caps : List SMove :=
    ([-1, 1] : List Int).flatMap fun offset =>
      let toC : Coord := ⟨fromC.x + offset, fromC.y + direction⟩
      if ¬ isValidPos toC then []
      else
        let epCase : List SMove :=
          match state.enPassantSquare with
          | some e =>
              if toC.x = e.x ∧ toC.y = e.y then
                match getB state.board ⟨toC.x, fromC.y⟩ with
                | some capturedPawn =>
                    if capturedPawn.color ≠ piece.color then
                      [{ fromC := fromC, toC := toC, capture := some capturedPawn,
                         isEnPassant := true }]
                    else []
                | none => []
              else []
          | none => []
        match getB state.board toC with
        | some target =>
            if target.color ≠ piece.color then
              if toC.y = promotionRank then addPromotionMoves fromC toC (some target)
              else [{ fromC := fromC, toC := toC, capture := some target }]
            else epCase
        | none => epCase
  forward ++ caps

def knightOffsets : List Coord :=
  [⟨1, 2⟩, ⟨1, -2⟩, ⟨-1, 2⟩, ⟨-1, -2⟩, ⟨2, 1⟩, ⟨2, -1⟩, ⟨-2, 1⟩, ⟨-2, -1⟩]

def kingOffsets : List Coord :=
  [⟨0, 1⟩, ⟨0, -1⟩, ⟨1, 0⟩, ⟨-1, 0⟩, ⟨1, 1⟩, ⟨1, -1⟩, ⟨-1, 1⟩, ⟨-1, -1⟩]

def generateStepMoves (state : SGameState) (fromC : Coord) (piece : SPiece)
    (offsets : List Coord) : List SMove :=
  offsets.flatMap fun off =>
    let toC : Coord := ⟨fromC.x + off.x, fromC.y + off.y⟩
    if isValidPos toC then
      match getB state.board toC with
      | none => [{ fromC := fromC, toC := toC, capture := none }]
      | some target =>
          if target.color ≠ piece.color then
            [{ fromC := fromC, toC := toC, capture := some target }]
          else []
    else []

/-- One direction of the `for (let i = 1; i < 8; i++)` sliding loop: fuel 7
is exactly the iteration bound of the source loop. -/
def srvGenRay (state : SGameState) (fromC : Coord) (piece : SPiece) (dir : Coord) :
    Coord → Nat → List SMove
  | _, 0 => []
  | t, fuel + 1 =>
      if ¬ isValidPos t then []
      else
        match getB state.board t with
        | some target =>
            if target.color ≠ piece.color then
              [{ fromC := fromC, toC := t, capture := some target }]
            else []
        | none =>
            { fromC := fromC, toC := t } ::
              srvGenRay state fromC piece dir ⟨t.x + dir.x, t.y + dir.y⟩ fuel

def slidingDirections (t : PieceT) : List Coord :=
  (if t = .bishop ∨ t = .queen then [⟨1, 1⟩, ⟨1, -1⟩, ⟨-1, 1⟩, ⟨-1, -1⟩] else []) ++
  (if t = .rook ∨ t = .queen then [⟨0, 1⟩, ⟨0, -1⟩, ⟨1, 0⟩, ⟨-1, 0⟩] else [])

def generateSlidingMoves (state : SGameState) (fromC : Coord) (piece : SPiece) : List SMove :=
  (slidingDirections piece.ptype).flatMap fun dir =>
    srvGenRay state fromC piece dir ⟨fromC.x + dir.x, fromC.y + dir.y⟩ 7

/-- One attacker ray of `isSquareAttacked`; fuel 7 is the source's loop
bound `i < 8`. -/
def srvDetRay (state : SGameState) (attackerColor : SColor) (dir : Coord) :
    Coord → Nat → Bool
  | _, 0 => false
  | t, fuel + 1 =>
      if ¬ isValidPos t then false
      else
        match getB state.board t with
        | some p =>
            if p.color = attackerColor then
              let isDiagonal := dir.x ≠ 0 ∧ dir.y ≠ 0
              p.ptype = .queen ∨ (isDiagonal ∧ p.ptype = .bishop) ∨
                (¬ isDiagonal ∧ p.ptype = .rook)
            else false
        | none => srvDetRay state attackerColor dir ⟨t.x + dir.x, t.y + dir.y⟩ fuel

def allDirections : List Coord :=
  [⟨0, 1⟩, ⟨0, -1⟩, ⟨1, 0⟩, ⟨-1, 0⟩, ⟨1, 1⟩, ⟨1, -1⟩, ⟨-1, 1⟩, ⟨-1, -1⟩]

def isSquareAttacked (state : SGameState) (pos : Coord) (attackerColor : SColor) : Bool :=
  let pawnDir : Int := if attackerColor = .white then -1 else 1
  let pawnRow := pos.y - pawnDir
  let pawnAt : Coord → Bool := fun c =>
    match getB state.board c with
    | some p => p.color = attackerColor && p.ptype = PieceT.pawn
    | none => false
  let pawnHit : Bool :=
    (0 ≤ pawnRow && pawnRow < 8) &&
      ((0 < pos.x && pawnAt ⟨pos.x - 1, pawnRow⟩) || (pos.x < 7 && pawnAt ⟨pos.x + 1, pawnRow⟩))
  let knightHit := knightOffsets.any fun off =>
    let t : Coord := ⟨pos.x + off.x, pos.y + off.y⟩
    isValidPos t &&
      match getB state.board t with
      | some p => p.color = attackerColor && p.ptype = PieceT.knight
      | none => false
  let slideHit := allDirections.any fun dir =>
    srvDetRay state attackerColor dir ⟨pos.x + dir.x, pos.y + dir.y⟩ 7
  let kingHit := kingOffsets.any fun off =>
    let t : Coord := ⟨pos.x + off.x, pos.y + off.y⟩
    isValidPos t &&
      match getB state.board t with
      | some p => p.color = attackerColor && p.ptype = PieceT.king
      | none => false
  pawnHit || knightHit || slideHit || kingHit

def findKing (state : SGameState) (color : SColor) : Option Coord :=
  (((List.range 8).flatMap fun y => (List.range 8).map fun x => (⟨x, y⟩ : Coord)).find?
    fun c =>
      match getB state.board c with
      | some p => p.ptype = PieceT.king && p.color = color
      | none => false)

def isKingInCheck (state : SGameState) (color : SColor) : Bool :=
  match findKing state color with
  | none => true
  | some kingPos => isSquareAttacked state kingPos color.getOpponentColor

def generateKingMoves (state : SGameState) (fromC : Coord) (piece : SPiece) : List SMove :=
  let steps := generateStepMoves state fromC piece kingOffsets
  let castles : List SMove :=
    if ¬ piece.hasMoved ∧ ¬ isKingInCheck state piece.color then
      let y : Int := if piece.color = .white then 7 else 0
      let rights := state.castlingRights
      let opp := piece.color.getOpponentColor
      (if (if piece.color = .white then rights.whiteKingSide else rights.blackKingSide) then
        if getB state.board ⟨5, y⟩ = none ∧ getB state.board ⟨6, y⟩ = none then
          if ¬ isSquareAttacked state ⟨5, y⟩ opp ∧ ¬ isSquareAttacked state ⟨6, y⟩ opp then
            [{ fromC := fromC, toC := ⟨6, y⟩, isCastle := some .king }]
          else []
        else []
      else []) ++
      (if (if piece.color = .white then rights.whiteQueenSide else rights.blackQueenSide) then
        if getB state.board ⟨1, y⟩ = none ∧ getB state.board ⟨2, y⟩ = none ∧
            getB state.board ⟨3, y⟩ = none then
          if ¬ isSquareAttacked state ⟨3, y⟩ opp ∧ ¬ isSquareAttacked state ⟨2, y⟩ opp then
            [{ fromC := fromC, toC := ⟨2, y⟩, isCastle := some .queen }]
          else []
        else []
      else [])
    else []
  steps ++ castles

def generatePseudoMoves (state : SGameState) (color : SColor) : List SMove :=
  ((List.range 8).flatMap fun y => (List.range 8).map fun x => (⟨x, y⟩ : Coord)).flatMap
    fun fromC =>
      match getB state.board fromC with
      | none => []
      | some piece =>
          if piece.color ≠ color then []
          else
            match piece.ptype with
            | .pawn => generatePawnMoves state fromC piece
            | .knight => generateStepMoves state fromC piece knightOffsets
            | .bishop => generateSlidingMoves state fromC piece
            | .rook => generateSlidingMoves state fromC piece
            | .queen => generateSlidingMoves state fromC piece
            | .king => generateKingMoves state fromC piece

/-- `applyMove` (the JSON deep copy is the identity in a pure embedding).
The moved piece is a shared reference in the source: the later mutations
`piece.hasMoved = true` and `piece.type = move.promotion` act on the object
already stored at the destination square, so the embedding stores the
final piece value there directly; nothing in between reads that square. -/
def applyMove (state : SGameState) (move : SMove) (testMode : Bool) : SGameState :=
  let piece0 := (getB state.board move.fromC).getD ⟨.pawn, .white, false⟩
  let piece : SPiece :=
    { piece0 with hasMoved := true, ptype := move.promotion.getD piece0.ptype }
  let b1 := setB state.board move.toC (some piece)
  let b2 := setB b1 move.fromC none
  let b3 :=
    if move.capture.isSome ∧ move.isEnPassant then
      setB b2 ⟨move.toC.x, move.fromC.y⟩ none
    else b2
  let b4 :=
    match move.isCastle with
    | some .king =>
        let row := move.fromC.y
        let rook := (getB b3 ⟨7, row⟩).getD ⟨.rook, piece.color, false⟩
        setB (setB b3 ⟨5, row⟩ (some { rook with hasMoved := true })) ⟨7, row⟩ none
    | some .queen =>
        let row := move.fromC.y
        let rook := (getB b3 ⟨0, row⟩).getD ⟨.rook, piece.color, false⟩
        setB (setB b3 ⟨3, row⟩ (some { rook with hasMoved := true })) ⟨0, row⟩ none
    | none => b3
  let ep' : Option Coord :=
    if piece.ptype = .pawn ∧ (move.toC.y - move.fromC.y).natAbs = 2 then
      some ⟨move.fromC.x, (move.fromC.y + move.toC.y) / 2⟩
    else none
  let cr1 : SCastlingRights :=
    if piece.ptype = .king then
      if piece.color = .white then
        { state.castlingRights with whiteKingSide := false, whiteQueenSide := false }
      else
        { state.castlingRights with blackKingSide := false, blackQueenSide := false }
    else state.castlingRights
  let cr2 : SCastlingRights :=
    if piece.ptype = .rook then
      let cA := if move.fromC.x = 0 ∧ move.fromC.y = 7 then { cr1 with whiteQueenSide := false } else cr1
      let cB := if move.fromC.x = 7 ∧ move.fromC.y = 7 then { cA with whiteKingSide := false } else cA
      let cC := if move.fromC.x = 0 ∧ move.fromC.y = 0 then { cB with blackQueenSide := false } else cB
      if move.fromC.x = 7 ∧ move.fromC.y = 0 then { cC with blackKingSide := false } else cC
    else cr1
  let cr3 : SCastlingRights :=
    match move.capture with
    | some c =>
        if c.ptype = .rook then
          let cA := if move.toC.x = 0 ∧ move.toC.y = 7 then { cr2 with whiteQueenSide := false } else cr2
          let cB := if move.toC.x = 7 ∧ move.toC.y = 7 then { cA with whiteKingSide := false } else cA
          let cC := if move.toC.x = 0 ∧ move.toC.y = 0 then { cB with blackQueenSide := false } else cB
          if move.toC.x = 7 ∧ move.toC.y = 0 then { cC with blackKingSide := false } else cC
        else cr2
    | none => cr2
  let base : SGameState :=
    { state with board := b4, enPassantSquare := ep', castlingRights := cr3 }
  if testMode then base
  else
    { base with
      sideToMove := state.sideToMove.getOpponentColor
      lastMove := some move
      halfmoveClock :=
        if piece.ptype = .pawn ∨ move.capture.isSome then 0 else state.halfmoveClock + 1
      fullmoveNumber :=
        if state.sideToMove = .black then state.fullmoveNumber + 1 else state.fullmoveNumber }

def getLegalMoves (gameState : SGameState) : List SMove :=
  (generatePseudoMoves gameState gameState.sideToMove).filter fun move =>
    ¬ isKingInCheck (applyMove gameState move true) gameState.sideToMove

def isInsufficientMaterial (state : SGameState) : Bool :=
  let pieces := (state.board.flatMap id).filterMap id
  if pieces.length = 2 then true
  else if pieces.length = 3 then
    pieces.any fun p => p.ptype = .bishop ∨ p.ptype = .knight
  else false

def pieceFenChar (p : SPiece) : Char :=
  let c : Char :=
    match p.ptype with
    | .pawn => 'p'
    | .knight => 'n'
    | .bishop => 'b'
    | .rook => 'r'
    | .queen => 'q'
    | .king => 'k'
  if p.color = .white then c.toUpper else c

/-- One board row of `generateFen` with its running empty counter. -/
def srvEncodeRow : List (Option SPiece) → Nat → List Char
  | [], empty => if 0 < empty then [Chess.digitChar empty] else []
  | none :: rest, empty => srvEncodeRow rest (empty + 1)
  | some p :: rest, empty =>
      (if 0 < empty then [Chess.digitChar empty] else []) ++ pieceFenChar p :: srvEncodeRow rest 0

def generateFen (state : SGameState) : List Char :=
  let boardPart :=
    Chess.joinChar '/' ((List.range 8).map fun y => srvEncodeRow (state.board.getD y []) 0)
  let sidePart : List Char := if state.sideToMove = .white then ['w'] else ['b']
  let castling :=
    (if state.castlingRights.whiteKingSide then ['K'] else []) ++
    (if state.castlingRights.whiteQueenSide then ['Q'] else []) ++
    (if state.castlingRights.blackKingSide then ['k'] else []) ++
    (if state.castlingRights.blackQueenSide then ['q'] else [])
  let castlePart := if castling = [] then ['-'] else castling
  let epPart : List Char :=
    match state.enPassantSquare with
    | some e => [Char.ofNat (97 + e.x.toNat), Chess.digitChar (8 - e.y.toNat)]
    | none => ['-']
  boardPart ++ ' ' :: sidePart ++ ' ' :: castlePart ++ ' ' :: epPart ++
    ' ' :: Chess.natDigits state.halfmoveClock ++ ' ' :: Chess.natDigits state.fullmoveNumber

/-- `fen.split(' ').slice(0, 4).join(' ')`. -/
def getPosition (fen : List Char) : List Char :=
  Chess.joinChar ' ' ((Chess.splitChar ' ' fen).take 4)

def isThreefoldRepetition (state : SGameState) : Bool :=
  let currentPos := getPosition (generateFen state)
  2 ≤ ((state.history.map getPosition).filter fun p => p = currentPos).length

structure MoveResult where
  success : Bool
  gameState : Option SGameState
  error : Option String
deriving DecidableEq, Repr

def moveMatches (fromC toC : Coord) (promotion : Option PieceT) (m : SMove) : Bool :=
  m.fromC.x = fromC.x ∧ m.fromC.y = fromC.y ∧ m.toC.x = toC.x ∧ m.toC.y = toC.y ∧
    (m.promotion = none ∨ m.promotion = promotion)

def makeMove (gameState : SGameState) (playerId : String) (fromC toC : Coord)
    (promotion : Option PieceT := none) : MoveResult :=
  if gameState.gameOver then ⟨false, none, some "Game is over"⟩
  else
    let isWhite := gameState.playersWhite = playerId
    let isBlack := gameState.playersBlack = playerId
    if ¬ isWhite ∧ ¬ isBlack then ⟨false, none, some "Not a player"⟩
    else if isWhite ∧ gameState.sideToMove ≠ .white then ⟨false, none, some "Not your turn"⟩
    else if isBlack ∧ gameState.sideToMove ≠ .black then ⟨false, none, some "Not your turn"⟩
    else
      match (getLegalMoves gameState).find? (moveMatches fromC toC promotion) with
      | none => ⟨false, none, some "Illegal move"⟩
      | some move =>
          let newState := applyMove gameState move false
          let nextLegalMoves := getLegalMoves newState
          let isCheck := isKingInCheck newState newState.sideToMove
          let s1 := { newState with check := isCheck }
          let s2 :=
            if nextLegalMoves.length = 0 then
              if isCheck then
                let w :=
                  if gameState.sideToMove = .white then gameState.playersWhite
                  else gameState.playersBlack
                { s1 with gameOver := true, checkmate := true, winner := some w }
              else { s1 with gameOver := true, stalemate := true, draw := true }
            else if isInsufficientMaterial s1 ∨ 100 ≤ s1.halfmoveClock ∨
                isThreefoldRepetition s1 then
              { s1 with gameOver := true, draw := true }
            else s1
          let fenStr := generateFen s2
          let s3 := { s2 with fen := fenStr, history := s2.history ++ [fenStr] }
          ⟨true, some s3, none⟩

end ChessGame

/-! Concrete states and inputs used by the claim theorems. -/

namespace Chess

/-- The decoded standard initial position (the decode succeeds; the
fallback state is never used). -/
def initGameState : GameState :=
  (fenToGameState initialFEN).toOption.getD
    ⟨makeEmptyBoard, .w, ⟨false, false, false, false⟩, none, 0, 1, []⟩

/-- A FEN whose board field contains the character `x`, which is neither a
digit nor one of the twelve piece letters. -/
def c1BadFEN : String := "xnbqkbnr/pppppppp/8/8/8/8/PPPPPPPP/RNBQKBNR w KQkq - 0 1"

/-- A FEN whose board field has nine ranks instead of eight. -/
def c1NineRankFEN : String := "rnbqkbnr/pppppppp/8/8/8/8/8/PPPPPPPP/RNBQKBNR w KQkq - 0 1"

/-- Black to move has exactly one legal move (Kh8–g8), after which white
mates in one with Ra8: at depth 2 every root value is the forced-mate
sentinel. -/
def c2FEN : String := "7k/8/6K1/8/8/8/8/R7 b - - 0 1"

/-- A game state whose board holds no piece at all (in particular no king
of either color). -/
def emptyBoardState : GameState :=
  ⟨makeEmptyBoard, .w, ⟨true, true, true, true⟩, none, 0, 1, []⟩

end Chess

namespace ChessGame

def initServerGame : SGameState := initializeGame "white-player" "black-player"

/-- The server initial game with both kings removed from the board. -/
def srvKinglessState : SGameState :=
  { initServerGame with board := List.replicate 8 (List.replicate 8 none) }

/-- Apply one accepted move (all moves in the repetition scenario are
accepted, so the fallback branch is never taken). -/
def c6Step (s : SGameState) (pid : String) (f t : Coord) : SGameState :=
  (makeMove s pid f t).gameState.getD s

/-- One knight out-and-back cycle: Ng1–f3, Ng8–f6, Nf3–g1, Nf6–g8. -/
def c6Cycle (s : SGameState) : SGameState :=
  c6Step (c6Step (c6Step (c6Step s "white-player" ⟨6, 7⟩ ⟨5, 5⟩) "black-player" ⟨6, 0⟩ ⟨5, 2⟩)
    "white-player" ⟨5, 5⟩ ⟨6, 7⟩) "black-player" ⟨5, 2⟩ ⟨6, 0⟩

/-- The position after two full knight cycles (eight accepted moves): its
board/side/castling/en-passant signature equals the starting position's,
for the third time in the game. -/
def c6After8 : SGameState := c6Cycle (c6Cycle initServerGame)

end ChessGame

namespace Chess

/-- The facts about a generated move that the make/undo round trip
depends on; every pseudo-legal move satisfies them (`pseudo_MoveOK`). -/
def MoveOK (gs : GameState) (m : Move) : Prop :=
  boardGet gs.board m.fromSq = some m.piece ∧
  m.fromSq ≠ m.toSq ∧
  ((m.isEnPassant = false ∧ m.isCastling = false) ∨
   (m.isEnPassant = true ∧ m.isCastling = false ∧ gs.enPassant = some m.toSq ∧
     ((m.piece.color = .w ∧ (m.fromSq = m.toSq - 7 ∨ m.fromSq = m.toSq - 9)) ∨
      (m.piece.color = .b ∧ (m.fromSq = m.toSq + 7 ∨ m.fromSq = m.toSq + 9)))) ∨
   (m.isCastling = true ∧ m.isEnPassant = false ∧ m.piece.type = 'k' ∧
     boardGet gs.board m.toSq = none ∧
     ((m.piece.color = .w ∧ gs.castling.wks = true ∧ m.toSq = 6 ∧ boardGet gs.board 5 = none) ∨
      (m.piece.color = .w ∧ gs.castling.wqs = true ∧ m.toSq = 2 ∧ boardGet gs.board 3 = none) ∨
      (m.piece.color = .b ∧ gs.castling.bks = true ∧ m.toSq = 62 ∧ boardGet gs.board 61 = none) ∨
      (m.piece.color = .b ∧ gs.castling.bqs = true ∧ m.toSq = 58 ∧ boardGet gs.board 59 = none))))

end Chess

namespace Chess

/-- The detector ray starting at a probe square, after the on-board and
wrapping checks for that probe have been passed. -/
def detRayFrom (gs : GameState) (byColor : Color) (d : Int) (t : Char) (cur : Int)
    (fuel : Nat) : Bool :=
  match boardGet gs.board cur with
  | some p => p.color = byColor ∧ (p.type = t ∨ p.type = 'q')
  | none => detRay gs byColor d t cur (cur + d) fuel

/-- The position of the C5 witness: a white pawn on e4 facing a black
pawn on d5. -/
def c5WitnessState : GameState :=
  (fenToGameState "k7/8/8/3p4/4P3/8/8/K7 w - - 0 1").toOption.getD
    ⟨makeEmptyBoard, .w, ⟨false, false, false, false⟩, none, 0, 1, []⟩

end Chess

/-! Claim theorems. -/

/-- C1: the claim states that `fenToGameState` signals a parse error on
every malformed FEN (wrong rank count, unknown characters) and never
returns a corrupted position.  The code contradicts this: a board field
containing the unknown character `x` decodes without error into a state
holding a junk piece of type `x`, and a board field with nine ranks also
decodes without error. -/
theorem c1_malformed_fen_accepted_without_error :
    ((Chess.fenToGameState Chess.c1BadFEN).toOption.map fun gs =>
      Chess.boardGet gs.board 56) = some (some ⟨'x', Chess.Color.b⟩) ∧
    ((Chess.fenToGameState Chess.c1NineRankFEN).toOption.map fun gs => gs.turn) =
      some Chess.Color.w := by
  decide

set_option maxRecDepth 40000 in
/-- C2: the claim states that the aiWorker root search returns `null`
exactly when no legal move exists.  The code contradicts this: in
`c2FEN` black has exactly one legal move, but at depth 2 its value is the
`-Infinity` forced-mate sentinel, the strict improvement test
`val < bestValue` fails against the `Infinity` initialisation, and the
search posts `bestMove: null`. -/
theorem c2_search_returns_null_despite_legal_move :
    AiWorker.bestMove Chess.c2FEN 2 Chess.Color.b = none ∧
    ((Chess.fenToGameState Chess.c2FEN).toOption.map fun gs =>
      (Chess.generateLegalMoves gs).length) = some 1 := by
  decide

set_option maxRecDepth 10000 in
/-- C8: from the standard initial position `generateLegalMoves` returns
exactly 20 moves for white: 16 pawn moves and 4 knight moves. -/
theorem c8_initial_position_twenty_moves :
    ((Chess.fenToGameState Chess.initialFEN).toOption.map fun gs =>
      ((Chess.generateLegalMoves gs).length,
       ((Chess.generateLegalMoves gs).filter fun m => m.piece.type = 'p').length,
       ((Chess.generateLegalMoves gs).filter fun m => m.piece.type = 'n').length)) =
    some (20, 16, 4) := by
  decide

/-- C9, counterexample: the claim states that check detection signals a
hard failure when no king of the queried color is on the board.  Both
implementations instead return an ordinary boolean on a kingless board:
the flat engine's `inCheck` returns `false`, the server engine's
`isKingInCheck` returns `true`. -/
theorem c9_counterexample_kingless_returns_boolean :
    Chess.findKingSquare Chess.emptyBoardState Chess.Color.w = none ∧
    Chess.inCheck Chess.emptyBoardState Chess.Color.w = false ∧
    ChessGame.findKing ChessGame.srvKinglessState ChessGame.SColor.white = none ∧
    ChessGame.isKingInCheck ChessGame.srvKinglessState ChessGame.SColor.white = true := by
  decide

/-- C9, amended: when no king of the queried color is present, neither
check detector fails hard; `inCheck` (flat engine) returns `false` and
`isKingInCheck` (server engine) returns `true`, in both cases an ordinary
boolean the caller cannot distinguish from a normal verdict. -/
theorem c9_amended_kingless_check_is_ordinary_boolean :
    (∀ (gs : Chess.GameState) (c : Chess.Color),
      Chess.findKingSquare gs c = none → Chess.inCheck gs c = false) ∧
    (∀ (s : ChessGame.SGameState) (c : ChessGame.SColor),
      ChessGame.findKing s c = none → ChessGame.isKingInCheck s c = true) := by
  constructor
  · intro gs c h
    simp [Chess.inCheck, h]
  · intro s c h
    simp [ChessGame.isKingInCheck, h]

/-- Witness for C9's amended theorem at the concrete kingless states. -/
theorem c9_amended_witness :
    Chess.inCheck Chess.emptyBoardState Chess.Color.w = false ∧
    ChessGame.isKingInCheck ChessGame.srvKinglessState ChessGame.SColor.white = true :=
  ⟨c9_amended_kingless_check_is_ordinary_boolean.1 Chess.emptyBoardState Chess.Color.w (by decide),
   c9_amended_kingless_check_is_ordinary_boolean.2 ChessGame.srvKinglessState
     ChessGame.SColor.white (by decide)⟩

/-- C10: `undoMove` on a state with empty history is a silent no-op: it
returns the state with every field unchanged. -/
theorem c10_undo_empty_history_noop (gs : Chess.GameState) (h : gs.history = []) :
    Chess.undoMove gs = gs := by
  unfold Chess.undoMove
  rw [h]
  rfl

/-- Witness for C10 at the decoded initial position. -/
theorem c10_witness : Chess.undoMove Chess.initGameState = Chess.initGameState :=
  c10_undo_empty_history_noop Chess.initGameState (by decide)

/-- Updating only the `check` flag does not change the material test
(which reads the board alone). -/
theorem srvCheckUpdateInsufficient (s : ChessGame.SGameState) (b : Bool) :
    ChessGame.isInsufficientMaterial { s with check := b } =
      ChessGame.isInsufficientMaterial s := rfl

/-- Updating only the `check` flag does not change the generated FEN. -/
theorem srvCheckUpdateFen (s : ChessGame.SGameState) (b : Bool) :
    ChessGame.generateFen { s with check := b } = ChessGame.generateFen s := rfl

/-- `applyMove` does not touch the history (it is appended to later, in
`makeMove`). -/
theorem srvApplyHistory (s : ChessGame.SGameState) (m : ChessGame.SMove) :
    (ChessGame.applyMove s m false).history = s.history := rfl

/-- `applyMove` does not touch the `gameOver` flag. -/
theorem srvApplyGameOver (s : ChessGame.SGameState) (m : ChessGame.SMove) :
    (ChessGame.applyMove s m false).gameOver = s.gameOver := rfl

/-- `applyMove` does not touch the `draw` flag. -/
theorem srvApplyDraw (s : ChessGame.SGameState) (m : ChessGame.SMove) :
    (ChessGame.applyMove s m false).draw = s.draw := rfl

set_option maxRecDepth 40000 in
/-- C6, counterexample: the claim states that a draw by repetition is
declared exactly when the position signature occurs for the third time
across the game's history (the literal rule).  After two knight
out-and-back cycles the initial signature has occurred three times
(start, after move 4, after move 8), yet the state machine declares no
draw: its history never contains the starting position, so it counts only
two of the three occurrences. -/
theorem c6_counterexample_third_occurrence_not_drawn :
    (((ChessGame.initServerGame.fen :: ChessGame.c6After8.history).map
        ChessGame.getPosition).count (ChessGame.getPosition ChessGame.c6After8.fen) = 3) ∧
    ChessGame.c6After8.draw = false ∧ ChessGame.c6After8.gameOver = false := by
  decide

/-- C6, amended: on an accepted move that produces neither
checkmate/stalemate, nor an insufficient-material or 50-move draw, the
resulting state is declared a repetition draw (gameOver and draw set) if
and only if the new position's board+side+castling+en-passant signature
already occurs at least twice among the positions recorded after the
previous accepted moves — a list that excludes the starting position, so a
cycle through the initial position is declared one full cycle late. -/
theorem c6_amended_repetition_draw_iff_two_prior_occurrences
    (gs : ChessGame.SGameState) (pid : String) (fromC toC : ChessGame.Coord)
    (pr : Option ChessGame.PieceT) (move : ChessGame.SMove)
    (hOver : gs.gameOver = false) (hDraw : gs.draw = false)
    (hTW : ¬(gs.playersWhite = pid ∧ gs.sideToMove ≠ .white))
    (hTB : ¬(gs.playersBlack = pid ∧ gs.sideToMove ≠ .black))
    (hPlayer : gs.playersWhite = pid ∨ gs.playersBlack = pid)
    (hFind : (ChessGame.getLegalMoves gs).find? (ChessGame.moveMatches fromC toC pr) = some move)
    (hNext : (ChessGame.getLegalMoves (ChessGame.applyMove gs move false)).length ≠ 0)
    (hIns : ChessGame.isInsufficientMaterial (ChessGame.applyMove gs move false) = false)
    (hHm : (ChessGame.applyMove gs move false).halfmoveClock < 100) :
    ((ChessGame.makeMove gs pid fromC toC pr).gameState.map fun s => (s.gameOver, s.draw)) =
      some
        (decide (2 ≤ (((gs.history.map ChessGame.getPosition).filter fun p =>
            p = ChessGame.getPosition (ChessGame.generateFen
              (ChessGame.applyMove gs move false))).length)),
         decide (2 ≤ (((gs.history.map ChessGame.getPosition).filter fun p =>
            p = ChessGame.getPosition (ChessGame.generateFen
              (ChessGame.applyMove gs move false))).length))) := by
  unfold ChessGame.makeMove
  dsimp only
  rw [hFind]
  dsimp only
  rw [if_neg (by simp [hOver]), if_neg (by rcases hPlayer with h | h <;> simp [h]),
    if_neg hTW, if_neg hTB]
  rw [if_neg hNext]
  have hclk : ¬ (100 ≤ (ChessGame.applyMove gs move false).halfmoveClock) := by omega
  simp only [ChessGame.isThreefoldRepetition]
  simp only [srvCheckUpdateInsufficient, srvCheckUpdateFen]
  simp only [srvApplyHistory, hIns, Bool.false_eq_true, false_or]
  by_cases hrep : 2 ≤ (((gs.history.map ChessGame.getPosition).filter fun p =>
      p = ChessGame.getPosition (ChessGame.generateFen (ChessGame.applyMove gs move false))).length)
  · rw [if_pos (Or.inr (decide_eq_true hrep))]
    simp [hrep]
  · rw [if_neg (by
      rintro (h | h)
      · exact hclk h
      · exact hrep (of_decide_eq_true h))]
    simp [hrep, hOver, hDraw, srvApplyGameOver, srvApplyDraw]

set_option maxRecDepth 40000 in
/-- Witness for C6's amended theorem: the first accepted move of a fresh
game (Ng1–f3) has no prior occurrence of its resulting signature, and the
machine declares no draw. -/
theorem c6_amended_witness :
    ((ChessGame.makeMove ChessGame.initServerGame "white-player" ⟨6, 7⟩ ⟨5, 5⟩
        none).gameState.map fun s => (s.gameOver, s.draw)) =
      some
        (decide (2 ≤ (((ChessGame.initServerGame.history.map ChessGame.getPosition).filter fun p =>
            p = ChessGame.getPosition (ChessGame.generateFen
              (ChessGame.applyMove ChessGame.initServerGame
                { fromC := ⟨6, 7⟩, toC := ⟨5, 5⟩ } false))).length)),
         decide (2 ≤ (((ChessGame.initServerGame.history.map ChessGame.getPosition).filter fun p =>
            p = ChessGame.getPosition (ChessGame.generateFen
              (ChessGame.applyMove ChessGame.initServerGame
                { fromC := ⟨6, 7⟩, toC := ⟨5, 5⟩ } false))).length))) :=
  c6_amended_repetition_draw_iff_two_prior_occurrences ChessGame.initServerGame "white-player"
    ⟨6, 7⟩ ⟨5, 5⟩ none { fromC := ⟨6, 7⟩, toC := ⟨5, 5⟩ } (by decide) (by decide)
    (by decide) (by decide) (by decide) (by decide) (by decide) (by decide) (by decide)

/-- C7: a submission that is rejected — because the game is already over,
because it is not the requesting side's turn, or because it matches no
legal move — returns a result with `success = false`, a present error, and
no new game state (the caller's state is untouched); since the state
machine is a pure function of its arguments, resubmitting the identical
input yields the identical error result. -/
theorem c7_rejected_submission_no_state_change
    (gs : ChessGame.SGameState) (pid : String) (fromC toC : ChessGame.Coord)
    (pr : Option ChessGame.PieceT)
    (h : gs.gameOver = true ∨
         (gs.playersWhite = pid ∧ gs.sideToMove ≠ .white) ∨
         (gs.playersBlack = pid ∧ gs.sideToMove ≠ .black) ∨
         (ChessGame.getLegalMoves gs).find? (ChessGame.moveMatches fromC toC pr) = none) :
    (ChessGame.makeMove gs pid fromC toC pr).success = false ∧
    (ChessGame.makeMove gs pid fromC toC pr).gameState = none ∧
    (ChessGame.makeMove gs pid fromC toC pr).error.isSome = true := by
  rcases hfind : (ChessGame.getLegalMoves gs).find? (ChessGame.moveMatches fromC toC pr)
    with _ | mv
  · unfold ChessGame.makeMove
    dsimp only
    rw [hfind]
    split_ifs <;> exact ⟨rfl, rfl, rfl⟩
  · unfold ChessGame.makeMove
    dsimp only
    rw [hfind]
    split_ifs with h1 h2 h3 h4 <;>
      first
      | exact ⟨rfl, rfl, rfl⟩
      | (exfalso
         rcases h with hx | hx | hx | hx
         · exact h1 hx
         · exact h3 hx
         · exact h4 hx
         · exact Option.noConfusion (hx.symm.trans hfind))

/-- Witness for C7: the diagonal non-capture pawn push e2–f3 from the
fresh game matches no legal move and is rejected with no state returned. -/
theorem c7_witness :
    (ChessGame.makeMove ChessGame.initServerGame "white-player" ⟨4, 6⟩ ⟨5, 5⟩ none).success =
      false ∧
    (ChessGame.makeMove ChessGame.initServerGame "white-player" ⟨4, 6⟩ ⟨5, 5⟩ none).gameState =
      none ∧
    (ChessGame.makeMove ChessGame.initServerGame "white-player" ⟨4, 6⟩ ⟨5, 5⟩ none).error.isSome =
      true :=
  c7_rejected_submission_no_state_change ChessGame.initServerGame "white-player" ⟨4, 6⟩ ⟨5, 5⟩
    none (Or.inr (Or.inr (Or.inr (by decide))))
namespace Chess

theorem length_boardSet (b : List (Option Piece)) (i : Int) (v : Option Piece) :
    (boardSet b i v).length = b.length := by
  unfold boardSet
  split <;> simp

theorem boardGet_boardSet (b : List (Option Piece)) (i : Int) (v : Option Piece) (j : Int) :
    boardGet (boardSet b i v) j =
      if i = j ∧ 0 ≤ i ∧ i < (b.length : Int) then v else boardGet b j := by
  by_cases hi : i < 0
  · have h1 : boardSet b i v = b := by unfold boardSet; rw [if_pos hi]
    rw [h1, if_neg (fun h => absurd h.2.1 (by omega))]
  · by_cases hj : j < 0
    · have h1 : boardGet (boardSet b i v) j = none := by unfold boardGet; rw [if_pos hj]
      have h2 : boardGet b j = none := by unfold boardGet; rw [if_pos hj]
      rw [h1, if_neg (fun h => absurd h.1 (by omega)), h2]
    · have h1 : boardGet (boardSet b i v) j = (b.set i.toNat v)[j.toNat]?.getD none := by
        unfold boardGet boardSet
        rw [if_neg hi, if_neg hj, List.getD_eq_getElem?_getD]
      have h2 : boardGet b j = b[j.toNat]?.getD none := by
        unfold boardGet
        rw [if_neg hj, List.getD_eq_getElem?_getD]
      rw [h1, h2]
      by_cases hij : i = j
      · subst hij
        rw [List.getElem?_set, if_pos rfl]
        by_cases hlen : i < (b.length : Int)
        · rw [if_pos (show i = i ∧ 0 ≤ i ∧ i < (b.length : Int) from ⟨rfl, by omega, hlen⟩),
            if_pos (by omega : i.toNat < b.length)]
          rfl
        · rw [if_neg (by omega : ¬ i.toNat < b.length), if_neg (fun h => absurd h.2.2 hlen)]
          rw [List.getElem?_eq_none (by omega : b.length ≤ i.toNat)]
      · rw [List.getElem?_set, if_neg (by omega : ¬ i.toNat = j.toNat),
          if_neg (fun h => absurd h.1 hij)]

theorem boardSet_boardGet_same (b : List (Option Piece)) (i : Int) :
    boardSet b i (boardGet b i) = b := by
  unfold boardGet boardSet
  by_cases hi : i < 0
  · simp [hi]
  · simp only [hi, if_false]
    apply List.ext_getElem
    · simp
    · intro n h1 h2
      rw [List.getElem_set]
      split
      · rename_i he
        subst he
        rw [List.getD_eq_getElem?_getD, List.getElem?_eq_getElem h2]
        rfl
      · rfl

theorem board_ext (b1 b2 : List (Option Piece)) (hl : b1.length = b2.length)
    (h : ∀ j : Int, boardGet b1 j = boardGet b2 j) : b1 = b2 := by
  apply List.ext_getElem hl
  intro n h1 h2
  have hn := h (n : Int)
  unfold boardGet at hn
  rw [if_neg (by omega)] at hn
  rw [List.getD_eq_getElem?_getD, List.getD_eq_getElem?_getD] at hn
  simp only [Int.toNat_natCast] at hn
  rw [List.getElem?_eq_getElem h1, List.getElem?_eq_getElem h2] at hn
  simpa using hn

end Chess
namespace Chess

theorem MoveOK_plain (gs : GameState) (f t : Int) (p : Piece) (cap : Option Piece)
    (promo : Option Char) (h1 : boardGet gs.board f = some p) (h2 : f ≠ t) :
    MoveOK gs { fromSq := f, toSq := t, piece := p, captured := cap, promotion := promo } :=
  ⟨h1, h2, Or.inl ⟨rfl, rfl⟩⟩

theorem MoveOK_ep (gs : GameState) (f t : Int) (p cp : Piece)
    (h1 : boardGet gs.board f = some p) (h2 : f ≠ t) (h3 : gs.enPassant = some t)
    (h4 : (p.color = .w ∧ (f = t - 7 ∨ f = t - 9)) ∨
          (p.color = .b ∧ (f = t + 7 ∨ f = t + 9))) :
    MoveOK gs { fromSq := f, toSq := t, piece := p, captured := some cp, isEnPassant := true } :=
  ⟨h1, h2, Or.inr (Or.inl ⟨rfl, rfl, h3, h4⟩)⟩

theorem pawn_MoveOK (gs : GameState) (sq : Int) (p : Piece)
    (hp : boardGet gs.board sq = some p) (m : Move)
    (hm : m ∈ generatePawnMoves gs sq p) : MoveOK gs m := by
  unfold generatePawnMoves at hm
  rcases hcol : p.color with _ | _ <;> simp only [hcol, reduceCtorEq, if_true, if_false,
    ite_true, ite_false, reduceIte] at hm <;> rw [List.mem_append] at hm
  case w =>
    rcases hm with hm | hm
    · split at hm
      · split at hm
        · obtain ⟨pr, _, rfl⟩ := List.mem_map.mp hm
          exact MoveOK_plain gs sq (sq + 8) p none (some pr) hp (by omega)
        · rcases List.mem_cons.mp hm with rfl | hm
          · exact MoveOK_plain gs sq (sq + 8) p none none hp (by omega)
          · split at hm
            · split at hm
              · rw [List.mem_singleton] at hm
                subst hm
                exact MoveOK_plain gs sq (sq + 2 * 8) p none none hp (by omega)
              · cases hm
            · cases hm
      · cases hm
    · rw [List.mem_flatMap] at hm
      obtain ⟨d, hd, hm⟩ := hm
      have hd79 : d = 7 ∨ d = 9 := by simpa using hd
      split at hm
      · cases hm
      · split at hm
        · cases hm
        · split at hm
          · -- occupied target
            rename_i target ht
            split at hm
            · split at hm
              · obtain ⟨pr, _, rfl⟩ := List.mem_map.mp hm
                exact MoveOK_plain gs sq (sq + d) p (some target) (some pr) hp (by omega)
              · rw [List.mem_singleton] at hm
                subst hm
                exact MoveOK_plain gs sq (sq + d) p (some target) none hp (by omega)
            · -- same color: epCase
              split at hm
              · rename_i e hep
                split at hm
                · rename_i he
                  split at hm
                  · rename_i cp hcp
                    split at hm
                    · rw [List.mem_singleton] at hm
                      subst hm
                      exact MoveOK_ep gs sq (sq + d) p cp hp (by omega)
                        (by rw [hep, he]) (Or.inl ⟨hcol, by omega⟩)
                    · cases hm
                  · cases hm
                · cases hm
              · cases hm
          · -- empty target: epCase
            split at hm
            · rename_i e hep
              split at hm
              · rename_i he
                split at hm
                · rename_i cp hcp
                  split at hm
                  · rw [List.mem_singleton] at hm
                    subst hm
                    exact MoveOK_ep gs sq (sq + d) p cp hp (by omega)
                      (by rw [hep, he]) (Or.inl ⟨hcol, by omega⟩)
                  · cases hm
                · cases hm
              · cases hm
            · cases hm
  case b =>
    rcases hm with hm | hm
    · split at hm
      · split at hm
        · obtain ⟨pr, _, rfl⟩ := List.mem_map.mp hm
          exact MoveOK_plain gs sq (sq + -8) p none (some pr) hp (by omega)
        · rcases List.mem_cons.mp hm with rfl | hm
          · exact MoveOK_plain gs sq (sq + -8) p none none hp (by omega)
          · split at hm
            · split at hm
              · rw [List.mem_singleton] at hm
                subst hm
                exact MoveOK_plain gs sq (sq + 2 * -8) p none none hp (by omega)
              · cases hm
            · cases hm
      · cases hm
    · rw [List.mem_flatMap] at hm
      obtain ⟨d, hd, hm⟩ := hm
      have hd79 : d = -7 ∨ d = -9 := by simpa using hd
      split at hm
      · cases hm
      · split at hm
        · cases hm
        · split at hm
          · rename_i target ht
            split at hm
            · split at hm
              · obtain ⟨pr, _, rfl⟩ := List.mem_map.mp hm
                exact MoveOK_plain gs sq (sq + d) p (some target) (some pr) hp (by omega)
              · rw [List.mem_singleton] at hm
                subst hm
                exact MoveOK_plain gs sq (sq + d) p (some target) none hp (by omega)
            · split at hm
              · rename_i e hep
                split at hm
                · rename_i he
                  split at hm
                  · rename_i cp hcp
                    split at hm
                    · rw [List.mem_singleton] at hm
                      subst hm
                      exact MoveOK_ep gs sq (sq + d) p cp hp (by omega)
                        (by rw [hep, he]) (Or.inr ⟨hcol, by omega⟩)
                    · cases hm
                  · cases hm
                · cases hm
              · cases hm
          · split at hm
            · rename_i e hep
              split at hm
              · rename_i he
                split at hm
                · rename_i cp hcp
                  split at hm
                  · rw [List.mem_singleton] at hm
                    subst hm
                    exact MoveOK_ep gs sq (sq + d) p cp hp (by omega)
                      (by rw [hep, he]) (Or.inr ⟨hcol, by omega⟩)
                  · cases hm
                · cases hm
              · cases hm
            · cases hm

theorem knight_MoveOK (gs : GameState) (sq : Int) (p : Piece)
    (hp : boardGet gs.board sq = some p) (m : Move)
    (hm : m ∈ generateKnightMoves gs sq p) : MoveOK gs m := by
  unfold generateKnightMoves at hm
  rw [List.mem_flatMap] at hm
  obtain ⟨d, hd, hm⟩ := hm
  have hdv : d = 17 ∨ d = 15 ∨ d = 10 ∨ d = 6 ∨ d = -6 ∨ d = -10 ∨ d = -15 ∨ d = -17 := by
    simpa [knightDeltas] using hd
  dsimp only at hm
  split at hm
  · cases hm
  · split at hm
    · cases hm
    · split at hm
      · rw [List.mem_singleton] at hm
        subst hm
        exact MoveOK_plain gs sq (sq + d) p none none hp (by omega)
      · rename_i target ht
        split at hm
        · rw [List.mem_singleton] at hm
          subst hm
          exact MoveOK_plain gs sq (sq + d) p (some target) none hp (by omega)
        · cases hm

theorem genRay_MoveOK (gs : GameState) (sq : Int) (p : Piece) (delta : Int) (cw : Bool)
    (hp : boardGet gs.board sq = some p) :
    ∀ (fuel : Nat) (pos lastFile : Int),
      ((0 < delta ∧ sq < pos) ∨ (delta < 0 ∧ pos < sq)) →
      ∀ m ∈ genRay gs sq p delta cw pos lastFile fuel, MoveOK gs m := by
  intro fuel
  induction fuel with
  | zero =>
    intro pos lf _ m hm
    cases hm
  | succ n ih =>
    intro pos lf hinv m hm
    unfold genRay at hm
    dsimp only at hm
    by_cases h1 : ¬ onBoard pos = true
    · rw [if_pos h1] at hm
      cases hm
    · rw [if_neg h1] at hm
      by_cases h2 : cw = true ∧ ¬ (fileOf pos - lf).natAbs = 1
      · rw [if_pos h2] at hm
        cases hm
      · rw [if_neg h2] at hm
        rcases ht : boardGet gs.board pos with _ | target <;> rw [ht] at hm <;>
          dsimp only at hm
        · rcases List.mem_cons.mp hm with rfl | hm
          · exact MoveOK_plain gs sq pos p none none hp (by omega)
          · exact ih (pos + delta) (fileOf pos) (by omega) m hm
        · split at hm
          · rw [List.mem_singleton] at hm
            subst hm
            exact MoveOK_plain gs sq pos p (some target) none hp (by omega)
          · cases hm

theorem sliding_MoveOK (gs : GameState) (sq : Int) (p : Piece)
    (dirs : List (Int × Bool)) (hd0 : ∀ dc ∈ dirs, dc.1 ≠ 0)
    (hp : boardGet gs.board sq = some p) (m : Move)
    (hm : m ∈ generateSlidingMoves gs sq p dirs) : MoveOK gs m := by
  unfold generateSlidingMoves at hm
  rw [List.mem_flatMap] at hm
  obtain ⟨dc, hdc, hm⟩ := hm
  have hne := hd0 dc hdc
  refine genRay_MoveOK gs sq p dc.1 dc.2 hp 100 (sq + dc.1) (fileOf sq) (by omega) m hm

theorem king_MoveOK (gs : GameState) (sq : Int) (p : Piece)
    (hp : boardGet gs.board sq = some p) (hk : p.type = 'k') (m : Move)
    (hm : m ∈ generateKingMoves gs sq p) : MoveOK gs m := by
  unfold generateKingMoves at hm
  rw [List.mem_append] at hm
  rcases hm with hm | hm
  · rw [List.mem_flatMap] at hm
    obtain ⟨d, hd, hm⟩ := hm
    have hdv : d = 1 ∨ d = -1 ∨ d = 8 ∨ d = -8 ∨ d = 9 ∨ d = 7 ∨ d = -7 ∨ d = -9 := by
      simpa [kingDeltas] using hd
    dsimp only at hm
    split at hm
    · cases hm
    · split at hm
      · cases hm
      · split at hm
        · rw [List.mem_singleton] at hm
          subst hm
          exact MoveOK_plain gs sq (sq + d) p none none hp (by omega)
        · rename_i target ht
          split at hm
          · rw [List.mem_singleton] at hm
            subst hm
            exact MoveOK_plain gs sq (sq + d) p (some target) none hp (by omega)
          · cases hm
  · rcases hcol : p.color with _ | _ <;> rw [hcol] at hm <;>
      simp only [reduceCtorEq, if_true, if_false, ite_true, ite_false, reduceIte] at hm <;>
      rw [List.mem_append] at hm
    case w =>
      rcases hm with hm | hm
      · split at hm
        · rename_i hcond
          rw [List.mem_singleton] at hm
          subst hm
          have hne : sq ≠ 6 := fun h => by rw [h, hcond.2.2] at hp; cases hp
          exact ⟨hp, hne, Or.inr (Or.inr ⟨rfl, rfl, hk, hcond.2.2,
            Or.inl ⟨hcol, by simpa using hcond.1, rfl, hcond.2.1⟩⟩)⟩
        · cases hm
      · split at hm
        · rename_i hcond
          rw [List.mem_singleton] at hm
          subst hm
          have hne : sq ≠ 2 := fun h => by rw [h, hcond.2.2.1] at hp; cases hp
          exact ⟨hp, hne, Or.inr (Or.inr ⟨rfl, rfl, hk, hcond.2.2.1,
            Or.inr (Or.inl ⟨hcol, by simpa using hcond.1, rfl, hcond.2.2.2⟩)⟩)⟩
        · cases hm
    case b =>
      rcases hm with hm | hm
      · split at hm
        · rename_i hcond
          rw [List.mem_singleton] at hm
          subst hm
          have hne : sq ≠ 62 := fun h => by rw [h, hcond.2.2] at hp; cases hp
          exact ⟨hp, hne, Or.inr (Or.inr ⟨rfl, rfl, hk, hcond.2.2,
            Or.inr (Or.inr (Or.inl ⟨hcol, by simpa using hcond.1, rfl, hcond.2.1⟩))⟩)⟩
        · cases hm
      · split at hm
        · rename_i hcond
          rw [List.mem_singleton] at hm
          subst hm
          have hne : sq ≠ 58 := fun h => by rw [h, hcond.2.2.1] at hp; cases hp
          exact ⟨hp, hne, Or.inr (Or.inr ⟨rfl, rfl, hk, hcond.2.2.1,
            Or.inr (Or.inr (Or.inr ⟨hcol, by simpa using hcond.1, rfl, hcond.2.2.2⟩))⟩)⟩
        · cases hm

theorem pseudo_MoveOK (gs : GameState) (m : Move)
    (hm : m ∈ generatePseudoLegalMoves gs) : MoveOK gs m := by
  unfold generatePseudoLegalMoves at hm
  rw [List.mem_flatMap] at hm
  obtain ⟨sqn, _, hmem⟩ := hm
  unfold movesFromSquare at hmem
  split at hmem
  · cases hmem
  · rename_i p hp
    split_ifs at hmem with h1 h2 h3 h4 h5 h6 h7
    · cases hmem
    · exact pawn_MoveOK gs _ p hp m hmem
    · exact knight_MoveOK gs _ p hp m hmem
    · exact sliding_MoveOK gs _ p bishopDirs (by decide) hp m hmem
    · exact sliding_MoveOK gs _ p rookDirs (by decide) hp m hmem
    · exact sliding_MoveOK gs _ p queenDirs (by decide) hp m hmem
    · exact king_MoveOK gs _ p hp h7 m hmem
    · cases hmem

theorem boardGet_some_bounds (b : List (Option Piece)) (i : Int) (v : Piece)
    (h : boardGet b i = some v) : 0 ≤ i ∧ i < (b.length : Int) := by
  unfold boardGet at h
  split at h
  · cases h
  · rename_i hi
    constructor
    · omega
    · by_contra hc
      rw [List.getD_eq_getElem?_getD, List.getElem?_eq_none (by omega)] at h
      cases h

theorem gameStateExt (a b : GameState) (h1 : a.board = b.board) (h2 : a.turn = b.turn)
    (h3 : a.castling = b.castling) (h4 : a.enPassant = b.enPassant)
    (h5 : a.halfmoveClock = b.halfmoveClock) (h6 : a.fullmoveNumber = b.fullmoveNumber)
    (h7 : a.history = b.history) : a = b := by
  cases a
  cases b
  simp_all

theorem piece_eq (p : Piece) (t : Char) (c : Color) (h1 : p.type = t) (h2 : p.color = c) :
    p = ⟨t, c⟩ := by
  cases p
  simp_all

theorem kingUniqueOfNat (b : List (Option Piece)) (hlen : b.length = 64) (c : Color)
    (target : Int)
    (hNat : ∀ i : Nat, i < 64 → boardGet b (i : Int) = some ⟨'k', c⟩ → (i : Int) = target) :
    ∀ i : Int, boardGet b i = some ⟨'k', c⟩ → i = target := by
  intro i h
  have hb := boardGet_some_bounds b i _ h
  have hi : i = ((i.toNat : Nat) : Int) := by omega
  rw [hi] at h ⊢
  exact hNat i.toNat (by omega) h

set_option maxHeartbeats 3000000 in
/-- C3: on a legal game state (64-square board, an en-passant target square
that is empty, and castling rights only present when that color's king is
uniquely on its home square), applying `makeMove` and then `undoMove` to
any generated legal move restores the original state exactly: board, turn,
castling rights, en-passant target, halfmove clock, fullmove number and
history are all equal to their pre-move values. -/
theorem c3_make_undo_roundtrip (gs : GameState) (m : Move) (hlen : gs.board.length = 64)
    (hepc : ∀ e, gs.enPassant = some e → boardGet gs.board e = none)
    (hW : (gs.castling.wks = true ∨ gs.castling.wqs = true) →
      ∀ i : Int, boardGet gs.board i = some ⟨'k', .w⟩ → i = 4)
    (hB : (gs.castling.bks = true ∨ gs.castling.bqs = true) →
      ∀ i : Int, boardGet gs.board i = some ⟨'k', .b⟩ → i = 60)
    (hm : m ∈ generateLegalMoves gs) : undoMove (makeMove gs m) = gs := by
  have hok := pseudo_MoveOK gs m (List.mem_filter.mp hm).1
  obtain ⟨hfrom, hne, hcase⟩ := hok
  have hfb := boardGet_some_bounds gs.board m.fromSq m.piece hfrom
  rcases hcase with ⟨he, hc⟩ | ⟨he, hc, hepsq, hoff⟩ | ⟨hc, he, hk, htoN, hsides⟩
  · -- plain move
    unfold makeMove undoMove
    simp only [he, hc, Bool.false_eq_true, if_false, ite_false, false_and, and_false,
      List.getLast?_concat, List.dropLast_concat]
    apply gameStateExt
    · -- board
      dsimp only
      apply board_ext
      · simp [length_boardSet]
      · intro j
        simp only [boardGet_boardSet, length_boardSet, hlen]
        split_ifs with h1 h2
        · rw [← h1.1]
        · rw [← h2.1, hfrom]
        · rfl
    · dsimp only
      cases gs.turn <;> rfl
    · rfl
    · rfl
    · rfl
    · dsimp only
      cases gs.turn <;> simp [Color.other]
    · rfl
  · -- en passant
    have htoNone : boardGet gs.board m.toSq = none := hepc _ hepsq
    rcases hoff with ⟨hcw, hf⟩ | ⟨hcb, hf⟩
    · unfold makeMove undoMove
      simp only [he, hc, hcw, Bool.false_eq_true, Bool.true_eq_false, if_false, if_true,
        ite_false, ite_true, false_and, and_false, reduceCtorEq, reduceIte,
        List.getLast?_concat, List.dropLast_concat]
      apply gameStateExt
      · dsimp only
        apply board_ext
        · simp [length_boardSet]
        · intro j
          simp only [boardGet_boardSet, length_boardSet, hlen]
          split_ifs with h1 h2 h3
          · rw [← h1.1]
            exact htoNone.symm
          · rw [← h2.1]
          · rw [← h3.1, hfrom]
          · rfl
      · dsimp only
        cases gs.turn <;> rfl
      · rfl
      · rfl
      · rfl
      · dsimp only
        cases gs.turn <;> simp [Color.other]
      · rfl
    · unfold makeMove undoMove
      simp only [he, hc, hcb, Bool.false_eq_true, Bool.true_eq_false, if_false, if_true,
        ite_false, ite_true, false_and, and_false, reduceCtorEq, reduceIte,
        List.getLast?_concat, List.dropLast_concat]
      apply gameStateExt
      · dsimp only
        apply board_ext
        · simp [length_boardSet]
        · intro j
          simp only [boardGet_boardSet, length_boardSet, hlen]
          split_ifs with h1 h2 h3
          · rw [← h1.1]
            exact htoNone.symm
          · rw [← h2.1]
          · rw [← h3.1, hfrom]
          · rfl
      · dsimp only
        cases gs.turn <;> rfl
      · rfl
      · rfl
      · rfl
      · dsimp only
        cases gs.turn <;> simp [Color.other]
      · rfl
  · -- castling
    rcases hsides with ⟨hcol, hflag, hto, hempty⟩ | ⟨hcol, hflag, hto, hempty⟩ |
      ⟨hcol, hflag, hto, hempty⟩ | ⟨hcol, hflag, hto, hempty⟩ <;>
      [(have h4 : m.fromSq = 4 := hW (Or.inl hflag) _ (by rw [hfrom, piece_eq m.piece _ _ hk hcol]));
       (have h4 : m.fromSq = 4 := hW (Or.inr hflag) _ (by rw [hfrom, piece_eq m.piece _ _ hk hcol]));
       (have h4 : m.fromSq = 60 := hB (Or.inl hflag) _ (by rw [hfrom, piece_eq m.piece _ _ hk hcol]));
       (have h4 : m.fromSq = 60 := hB (Or.inr hflag) _ (by rw [hfrom, piece_eq m.piece _ _ hk hcol]))] <;>
    · unfold makeMove undoMove
      simp +decide only [he, hc, hk, hto, h4, Bool.false_eq_true, Bool.true_eq_false, if_false,
        if_true, ite_false, ite_true, false_and, and_false, true_and, and_true, and_self,
        reduceCtorEq, reduceIte, List.getLast?_concat, List.dropLast_concat]
      apply gameStateExt
      · dsimp only
        apply board_ext
        · simp [length_boardSet]
        · intro j
          clear hW hB hepc hm hfb hne
          simp +decide only [boardGet_boardSet, length_boardSet, hlen, hfrom]
          split_ifs <;> simp_all
      · dsimp only
        cases gs.turn <;> rfl
      · rfl
      · rfl
      · rfl
      · dsimp only
        cases gs.turn <;> simp [Color.other]
      · rfl

set_option maxRecDepth 10000 in
/-- Witness for C3 at the decoded initial position with the pawn move
a2–a3. -/
theorem c3_witness :
    undoMove (makeMove initGameState
      { fromSq := 8, toSq := 16, piece := ⟨'p', Color.w⟩ }) = initGameState :=
  c3_make_undo_roundtrip initGameState _ (by decide)
    (fun e h => by rw [show initGameState.enPassant = none by decide] at h; cases h)
    (fun _ => kingUniqueOfNat _ (by decide) _ _ (by decide))
    (fun _ => kingUniqueOfNat _ (by decide) _ _ (by decide))
    (by decide)

end Chess

namespace Chess

theorem detRay_succ_true (gs : GameState) (c : Color) (d : Int) (t : Char)
    (prior cur : Int) (f : Nat) :
    detRay gs c d t prior cur (f + 1) = true ↔
      (onBoard cur = true ∧
       ¬ (1 < (fileOf cur - fileOf prior).natAbs ∨ 1 < (rankOf cur - rankOf prior).natAbs) ∧
       detRayFrom gs c d t cur f = true) := by
  unfold detRay detRayFrom
  by_cases h1 : onBoard cur = true
  · rw [if_neg (by simp [h1])]
    by_cases h2 : 1 < (fileOf cur - fileOf prior).natAbs ∨ 1 < (rankOf cur - rankOf prior).natAbs
    · rw [if_pos h2]
      simp [h1, h2]
    · rw [if_neg h2]
      rcases hb : boardGet gs.board cur with _ | p
      · simp [h1, h2]
      · simp [h1, h2]
  · rw [if_pos (by simpa using h1)]
    simp [h1]

theorem detRay_mono (gs : GameState) (c : Color) (d : Int) (t : Char) :
    ∀ (f1 : Nat) (prior cur : Int), detRay gs c d t prior cur f1 = true →
      detRay gs c d t prior cur (f1 + 1) = true := by
  intro f1
  induction f1 with
  | zero =>
    intro prior cur h
    rw [show detRay gs c d t prior cur 0 = false from rfl] at h
    cases h
  | succ n ih =>
    intro prior cur h
    rw [detRay_succ_true] at h ⊢
    obtain ⟨h1, h2, h3⟩ := h
    refine ⟨h1, h2, ?_⟩
    unfold detRayFrom at h3 ⊢
    split at h3
    · exact h3
    · exact ih cur (cur + d) h3

theorem detRay_mono_le (gs : GameState) (c : Color) (d : Int) (t : Char)
    (f1 f2 : Nat) (hle : f1 ≤ f2) (prior cur : Int)
    (h : detRay gs c d t prior cur f1 = true) : detRay gs c d t prior cur f2 = true := by
  induction f2 with
  | zero =>
    have : f1 = 0 := by omega
    subst this
    exact h
  | succ n ih =>
    by_cases hf : f1 = n + 1
    · subst hf
      exact h
    · exact detRay_mono gs c d t n prior cur (ih (by omega))

theorem detRayFrom_mono_le (gs : GameState) (c : Color) (d : Int) (t : Char)
    (f1 f2 : Nat) (hle : f1 ≤ f2) (cur : Int)
    (h : detRayFrom gs c d t cur f1 = true) : detRayFrom gs c d t cur f2 = true := by
  unfold detRayFrom at h ⊢
  split at h
  · exact h
  · exact detRay_mono_le gs c d t f1 f2 hle cur (cur + d) h

theorem stepGeom (δ : Int)
    (hδ : δ = 1 ∨ δ = -1 ∨ δ = 8 ∨ δ = -8 ∨ δ = 9 ∨ δ = 7 ∨ δ = -7 ∨ δ = -9)
    (a b : Int) (ha : onBoard a = true) (hb : onBoard b = true) (hab : b = a + δ)
    (hfile : (fileOf b - fileOf a).natAbs = 1 ∨ δ = 8 ∨ δ = -8) :
    ¬ (1 < (fileOf a - fileOf b).natAbs ∨ 1 < (rankOf a - rankOf b).natAbs) := by
  have ha' : 0 ≤ a ∧ a < 64 := by
    unfold onBoard at ha
    simpa using ha
  have hb' : 0 ≤ b ∧ b < 64 := by
    unfold onBoard at hb
    simpa using hb
  have hfa : fileOf a = a % 8 := by
    unfold fileOf
    rw [Int.tmod_eq_emod (by omega) (by omega)]
  have hfb : fileOf b = b % 8 := by
    unfold fileOf
    rw [Int.tmod_eq_emod (by omega) (by omega)]
  unfold rankOf
  rw [hfa, hfb] at hfile ⊢
  rcases hδ with rfl | rfl | rfl | rfl | rfl | rfl | rfl | rfl <;> omega

theorem attacked_of_pawn (gs : GameState) (sqA : Int) (c : Color) (f : Int)
    (hmem : f ∈ (if c = .w then [sqA - 7, sqA - 9] else [sqA + 7, sqA + 9] : List Int))
    (h1 : onBoard f = true) (h2 : (fileOf sqA - fileOf f).natAbs = 1)
    (h3 : boardGet gs.board f = some ⟨'p', c⟩) :
    isSquareAttacked gs sqA c = true := by
  unfold isSquareAttacked
  dsimp only
  simp only [Bool.or_eq_true]
  refine Or.inl (Or.inl (Or.inl ?_))
  rw [List.any_eq_true]
  exact ⟨f, hmem, by simp [h1, h2, h3]⟩

theorem attacked_of_knight (gs : GameState) (sqA : Int) (c : Color) (d : Int)
    (hmem : d ∈ knightDeltas) (f : Int) (hf : f = sqA + d)
    (h1 : onBoard f = true) (h2 : (fileOf sqA - fileOf f).natAbs ≤ 2)
    (h3 : boardGet gs.board f = some ⟨'n', c⟩) :
    isSquareAttacked gs sqA c = true := by
  unfold isSquareAttacked
  dsimp only
  simp only [Bool.or_eq_true]
  subst hf
  refine Or.inl (Or.inl (Or.inr ?_))
  rw [List.any_eq_true]
  exact ⟨d, hmem, by simp [h1, h2, h3]⟩

theorem attacked_of_king (gs : GameState) (sqA : Int) (c : Color) (d : Int)
    (hmem : d ∈ kingDeltas) (f : Int) (hf : f = sqA + d)
    (h1 : onBoard f = true) (h2 : (fileOf sqA - fileOf f).natAbs ≤ 1)
    (h3 : boardGet gs.board f = some ⟨'k', c⟩) :
    isSquareAttacked gs sqA c = true := by
  unfold isSquareAttacked
  dsimp only
  simp only [Bool.or_eq_true]
  subst hf
  refine Or.inr ?_
  rw [List.any_eq_true]
  exact ⟨d, hmem, by simp [h1, h2, h3]⟩

theorem attacked_of_slide (gs : GameState) (sqA : Int) (c : Color) (dt : Int × Char)
    (hmem : dt ∈ slideDirTypes)
    (h : detRay gs c dt.1 dt.2 sqA (sqA + dt.1) 100 = true) :
    isSquareAttacked gs sqA c = true := by
  unfold isSquareAttacked
  dsimp only
  simp only [Bool.or_eq_true]
  refine Or.inl (Or.inr ?_)
  rw [List.any_eq_true]
  exact ⟨dt, hmem, h⟩

theorem pawn_capture_attacked (gs : GameState) (sq : Int) (p : Piece)
    (hsq : onBoard sq = true) (hp : boardGet gs.board sq = some p)
    (htp : p.type = 'p') (hturn : p.color = gs.turn) (m : Move)
    (hm : m ∈ generatePawnMoves gs sq p) (c : Piece) (hcap : m.captured = some c) :
    isSquareAttacked gs m.toSq gs.turn = true := by
  have hpp : p = ⟨'p', gs.turn⟩ := piece_eq p _ _ htp hturn
  unfold generatePawnMoves at hm
  rcases hcol : p.color with _ | _ <;> simp only [hcol, reduceCtorEq, if_true, if_false,
    ite_true, ite_false, reduceIte] at hm <;> rw [List.mem_append] at hm
  case w =>
    have hw : gs.turn = .w := by rw [← hturn, hcol]
    rcases hm with hm | hm
    · split at hm
      · split at hm
        · obtain ⟨pr, _, rfl⟩ := List.mem_map.mp hm
          cases hcap
        · rcases List.mem_cons.mp hm with rfl | hm
          · cases hcap
          · split at hm
            · split at hm
              · rw [List.mem_singleton] at hm
                subst hm
                cases hcap
              · cases hm
            · cases hm
      · cases hm
    · rw [List.mem_flatMap] at hm
      obtain ⟨d, hd, hm⟩ := hm
      have hd79 : d = 7 ∨ d = 9 := by simpa using hd
      split at hm
      · cases hm
      · split at hm
        · cases hm
        · rename_i hOn hFile
          rw [not_not] at hOn
          rw [Decidable.not_not] at hFile
          split at hm
          · rename_i target ht
            split at hm
            · split at hm
              · obtain ⟨pr, _, rfl⟩ := List.mem_map.mp hm
                refine attacked_of_pawn gs (sq + d) gs.turn sq ?_ hsq (by omega)
                  (by rw [hp, hpp])
                rw [hw]
                simp only [reduceCtorEq, reduceIte, List.mem_cons, List.not_mem_nil, or_false]
                omega
              · rw [List.mem_singleton] at hm
                subst hm
                refine attacked_of_pawn gs (sq + d) gs.turn sq ?_ hsq (by omega)
                  (by rw [hp, hpp])
                rw [hw]
                simp only [reduceCtorEq, reduceIte, List.mem_cons, List.not_mem_nil, or_false]
                omega
            · split at hm
              · split at hm
                · split at hm
                  · split at hm
                    · rw [List.mem_singleton] at hm
                      subst hm
                      refine attacked_of_pawn gs (sq + d) gs.turn sq ?_ hsq (by omega)
                        (by rw [hp, hpp])
                      rw [hw]
                      simp only [reduceCtorEq, reduceIte, List.mem_cons, List.not_mem_nil,
                        or_false]
                      omega
                    · cases hm
                  · cases hm
                · cases hm
              · cases hm
          · split at hm
            · split at hm
              · split at hm
                · split at hm
                  · rw [List.mem_singleton] at hm
                    subst hm
                    refine attacked_of_pawn gs (sq + d) gs.turn sq ?_ hsq (by omega)
                      (by rw [hp, hpp])
                    rw [hw]
                    simp only [reduceCtorEq, reduceIte, List.mem_cons, List.not_mem_nil, or_false]
                    omega
                  · cases hm
                · cases hm
              · cases hm
            · cases hm
  case b =>
    have hw : gs.turn = .b := by rw [← hturn, hcol]
    rcases hm with hm | hm
    · split at hm
      · split at hm
        · obtain ⟨pr, _, rfl⟩ := List.mem_map.mp hm
          cases hcap
        · rcases List.mem_cons.mp hm with rfl | hm
          · cases hcap
          · split at hm
            · split at hm
              · rw [List.mem_singleton] at hm
                subst hm
                cases hcap
              · cases hm
            · cases hm
      · cases hm
    · rw [List.mem_flatMap] at hm
      obtain ⟨d, hd, hm⟩ := hm
      have hd79 : d = -7 ∨ d = -9 := by simpa using hd
      split at hm
      · cases hm
      · split at hm
        · cases hm
        · rename_i hOn hFile
          rw [not_not] at hOn
          rw [Decidable.not_not] at hFile
          split at hm
          · rename_i target ht
            split at hm
            · split at hm
              · obtain ⟨pr, _, rfl⟩ := List.mem_map.mp hm
                refine attacked_of_pawn gs (sq + d) gs.turn sq ?_ hsq (by omega)
                  (by rw [hp, hpp])
                rw [hw]
                simp only [reduceCtorEq, reduceIte, List.mem_cons, List.not_mem_nil, or_false]
                omega
              · rw [List.mem_singleton] at hm
                subst hm
                refine attacked_of_pawn gs (sq + d) gs.turn sq ?_ hsq (by omega)
                  (by rw [hp, hpp])
                rw [hw]
                simp only [reduceCtorEq, reduceIte, List.mem_cons, List.not_mem_nil, or_false]
                omega
            · split at hm
              · split at hm
                · split at hm
                  · split at hm
                    · rw [List.mem_singleton] at hm
                      subst hm
                      refine attacked_of_pawn gs (sq + d) gs.turn sq ?_ hsq (by omega)
                        (by rw [hp, hpp])
                      rw [hw]
                      simp only [reduceCtorEq, reduceIte, List.mem_cons, List.not_mem_nil,
                        or_false]
                      omega
                    · cases hm
                  · cases hm
                · cases hm
              · cases hm
          · split at hm
            · split at hm
              · split at hm
                · split at hm
                  · rw [List.mem_singleton] at hm
                    subst hm
                    refine attacked_of_pawn gs (sq + d) gs.turn sq ?_ hsq (by omega)
                      (by rw [hp, hpp])
                    rw [hw]
                    simp only [reduceCtorEq, reduceIte, List.mem_cons, List.not_mem_nil, or_false]
                    omega
                  · cases hm
                · cases hm
              · cases hm
            · cases hm

theorem knight_capture_attacked (gs : GameState) (sq : Int) (p : Piece)
    (hsq : onBoard sq = true) (hp : boardGet gs.board sq = some p)
    (htp : p.type = 'n') (hturn : p.color = gs.turn) (m : Move)
    (hm : m ∈ generateKnightMoves gs sq p) (c : Piece) (hcap : m.captured = some c) :
    isSquareAttacked gs m.toSq gs.turn = true := by
  have hpp : p = ⟨'n', gs.turn⟩ := piece_eq p _ _ htp hturn
  unfold generateKnightMoves at hm
  rw [List.mem_flatMap] at hm
  obtain ⟨d, hd, hm⟩ := hm
  have hdv : d = 17 ∨ d = 15 ∨ d = 10 ∨ d = 6 ∨ d = -6 ∨ d = -10 ∨ d = -15 ∨ d = -17 := by
    simpa [knightDeltas] using hd
  dsimp only at hm
  split at hm
  · cases hm
  · split at hm
    · cases hm
    · rename_i hOn hFile
      rw [not_not] at hOn
      split at hm
      · rw [List.mem_singleton] at hm
        subst hm
        cases hcap
      · rename_i target ht
        split at hm
        · rw [List.mem_singleton] at hm
          subst hm
          refine attacked_of_knight gs (sq + d) gs.turn (-d)
            (by rcases hdv with rfl | rfl | rfl | rfl | rfl | rfl | rfl | rfl <;> decide)
            sq (by ring) hsq (by omega) (by rw [hp, hpp])
        · cases hm

theorem king_capture_attacked (gs : GameState) (sq : Int) (p : Piece)
    (hsq : onBoard sq = true) (hp : boardGet gs.board sq = some p)
    (htp : p.type = 'k') (hturn : p.color = gs.turn) (m : Move)
    (hm : m ∈ generateKingMoves gs sq p) (c : Piece) (hcap : m.captured = some c) :
    isSquareAttacked gs m.toSq gs.turn = true := by
  have hpp : p = ⟨'k', gs.turn⟩ := piece_eq p _ _ htp hturn
  unfold generateKingMoves at hm
  rw [List.mem_append] at hm
  rcases hm with hm | hm
  · rw [List.mem_flatMap] at hm
    obtain ⟨d, hd, hm⟩ := hm
    have hdv : d = 1 ∨ d = -1 ∨ d = 8 ∨ d = -8 ∨ d = 9 ∨ d = 7 ∨ d = -7 ∨ d = -9 := by
      simpa [kingDeltas] using hd
    dsimp only at hm
    split at hm
    · cases hm
    · split at hm
      · cases hm
      · rename_i hOn hFile
        rw [not_not] at hOn
        split at hm
        · rw [List.mem_singleton] at hm
          subst hm
          cases hcap
        · rename_i target ht
          split at hm
          · rw [List.mem_singleton] at hm
            subst hm
            refine attacked_of_king gs (sq + d) gs.turn (-d)
              (by rcases hdv with rfl | rfl | rfl | rfl | rfl | rfl | rfl | rfl <;> decide)
              sq (by ring) hsq (by omega) (by rw [hp, hpp])
          · cases hm
  · rcases hcol : p.color with _ | _ <;> rw [hcol] at hm <;>
      simp only [reduceCtorEq, if_true, if_false, ite_true, ite_false, reduceIte] at hm <;>
      rw [List.mem_append] at hm <;>
      rcases hm with hm | hm <;>
      · split at hm
        · rw [List.mem_singleton] at hm
          subst hm
          cases hcap
        · cases hm

theorem genRay_capture_attacked (gs : GameState) (sq : Int) (p : Piece) (delta : Int)
    (cw : Bool) (t2 : Char) (hmem : ((-delta, t2) : Int × Char) ∈ slideDirTypes)
    (hdval : delta = 1 ∨ delta = -1 ∨ delta = 8 ∨ delta = -8 ∨ delta = 9 ∨ delta = 7 ∨
      delta = -7 ∨ delta = -9)
    (hcw : cw = false → delta = 8 ∨ delta = -8) :
    ∀ (fuel : Nat) (pos lastFile : Int), fuel ≤ 100 →
      lastFile = fileOf (pos - delta) →
      onBoard (pos - delta) = true →
      detRayFrom gs gs.turn (-delta) t2 (pos - delta) (100 - fuel) = true →
      ∀ m ∈ genRay gs sq p delta cw pos lastFile fuel, ∀ c, m.captured = some c →
        isSquareAttacked gs m.toSq gs.turn = true := by
  intro fuel
  induction fuel with
  | zero =>
    intro pos lf _ _ _ _ m hm
    cases hm
  | succ n ih =>
    intro pos lf hfle hlf hOnPrev hFrom m hm c hcap
    unfold genRay at hm
    dsimp only at hm
    by_cases h1 : ¬ onBoard pos = true
    · rw [if_pos h1] at hm
      cases hm
    · rw [if_neg h1] at hm
      rw [not_not] at h1
      by_cases h2 : cw = true ∧ ¬ (fileOf pos - lf).natAbs = 1
      · rw [if_pos h2] at hm
        cases hm
      · rw [if_neg h2] at hm
        have hwrap : ¬ (1 < (fileOf (pos - delta) - fileOf pos).natAbs ∨
            1 < (rankOf (pos - delta) - rankOf pos).natAbs) := by
          refine stepGeom delta hdval (pos - delta) pos hOnPrev h1 (by ring) ?_
          rcases hcwv : cw with _ | _
          · right
            exact hcw hcwv
          · left
            rcases not_and_or.mp h2 with hcontra | hfile
            · exact absurd hcwv hcontra
            · rw [Decidable.not_not] at hfile
              rw [hlf] at hfile
              exact hfile
        rcases ht : boardGet gs.board pos with _ | target <;> rw [ht] at hm <;>
          dsimp only at hm
        · rcases List.mem_cons.mp hm with rfl | hm
          · cases hcap
          · refine ih (pos + delta) (fileOf pos) (by omega) (by ring_nf) ?_ ?_ m hm c hcap
            · rw [show pos + delta - delta = pos by ring]
              exact h1
            · rw [show pos + delta - delta = pos by ring]
              unfold detRayFrom
              rw [ht]
              rw [show pos + -delta = pos - delta by ring]
              have hn : 100 - (n + 1) + 1 = 100 - n := by omega
              rw [← hn]
              rw [detRay_succ_true]
              exact ⟨hOnPrev, hwrap, hFrom⟩
        · split at hm
          · rw [List.mem_singleton] at hm
            subst hm
            refine attacked_of_slide gs pos gs.turn (-delta, t2) hmem ?_
            show detRay gs gs.turn (-delta) t2 pos (pos + -delta) 100 = true
            rw [show pos + -delta = pos - delta by ring]
            rw [show (100 : Nat) = 99 + 1 by omega]
            rw [detRay_succ_true]
            exact ⟨hOnPrev, hwrap,
              detRayFrom_mono_le gs gs.turn (-delta) t2 (100 - (n + 1)) 99 (by omega) _ hFrom⟩
          · cases hm

theorem sliding_capture_attacked (gs : GameState) (sq : Int) (p : Piece)
    (dirs : List (Int × Bool))
    (hdirs : ∀ dc ∈ dirs, ∃ t2 : Char, ((-dc.1, t2) : Int × Char) ∈ slideDirTypes ∧
      (p.type = t2 ∨ p.type = 'q') ∧
      (dc.1 = 1 ∨ dc.1 = -1 ∨ dc.1 = 8 ∨ dc.1 = -8 ∨ dc.1 = 9 ∨ dc.1 = 7 ∨ dc.1 = -7 ∨
        dc.1 = -9) ∧
      (dc.2 = false → dc.1 = 8 ∨ dc.1 = -8))
    (hsq : onBoard sq = true) (hp : boardGet gs.board sq = some p)
    (hturn : p.color = gs.turn) (m : Move)
    (hm : m ∈ generateSlidingMoves gs sq p dirs) (c : Piece) (hcap : m.captured = some c) :
    isSquareAttacked gs m.toSq gs.turn = true := by
  unfold generateSlidingMoves at hm
  rw [List.mem_flatMap] at hm
  obtain ⟨dc, hdc, hm⟩ := hm
  obtain ⟨t2, hmem, hok, hdval, hcw⟩ := hdirs dc hdc
  refine genRay_capture_attacked gs sq p dc.1 dc.2 t2 hmem hdval hcw 100 (sq + dc.1)
    (fileOf sq) (by omega) ?_ ?_ ?_ m hm c hcap
  · rw [show sq + dc.1 - dc.1 = sq by ring]
  · rw [show sq + dc.1 - dc.1 = sq by ring]
    exact hsq
  · rw [show sq + dc.1 - dc.1 = sq by ring]
    unfold detRayFrom
    rw [hp]
    simp only [decide_eq_true_eq]
    exact ⟨hturn, hok⟩

set_option maxHeartbeats 1000000 in
/-- C5: every pseudo-legal move whose `captured` field holds a piece — an
ordinary capture or an en-passant capture — has a destination square that
`isSquareAttacked` reports as attacked by the moving side: the move
generator's threat model and the check detector agree on every capture
destination. -/
theorem c5_capture_attacked (gs : GameState) (m : Move) (c : Piece)
    (hm : m ∈ generatePseudoLegalMoves gs) (hcap : m.captured = some c) :
    isSquareAttacked gs m.toSq gs.turn = true := by
  unfold generatePseudoLegalMoves at hm
  rw [List.mem_flatMap] at hm
  obtain ⟨sqn, hsqn, hmem⟩ := hm
  rw [List.mem_range] at hsqn
  have hsq : onBoard (sqn : Int) = true := by
    unfold onBoard
    simp only [decide_eq_true_eq]
    omega
  unfold movesFromSquare at hmem
  split at hmem
  · cases hmem
  · rename_i p hp
    split_ifs at hmem with h1 h2 h3 h4 h5 h6 h7
    · cases hmem
    · exact pawn_capture_attacked gs _ p hsq hp h2 (not_ne_iff.mp h1) m hmem c hcap
    · exact knight_capture_attacked gs _ p hsq hp h3 (by simpa using h1) m hmem c hcap
    · refine sliding_capture_attacked gs _ p bishopDirs ?_ hsq hp (by simpa using h1)
        m hmem c hcap
      intro dc hdc
      rcases (show dc = ((9 : Int), true) ∨ dc = ((7 : Int), true) ∨ dc = ((-7 : Int), true) ∨
          dc = ((-9 : Int), true) by simpa [bishopDirs] using hdc) with rfl | rfl | rfl | rfl <;>
        exact ⟨'b', by decide, Or.inl h4, by decide, by decide⟩
    · refine sliding_capture_attacked gs _ p rookDirs ?_ hsq hp (by simpa using h1)
        m hmem c hcap
      intro dc hdc
      rcases (show dc = ((8 : Int), false) ∨ dc = ((-8 : Int), false) ∨ dc = ((1 : Int), true) ∨
          dc = ((-1 : Int), true) by simpa [rookDirs] using hdc) with rfl | rfl | rfl | rfl <;>
        exact ⟨'r', by decide, Or.inl h5, by decide, by decide⟩
    · refine sliding_capture_attacked gs _ p queenDirs ?_ hsq hp (by simpa using h1)
        m hmem c hcap
      intro dc hdc
      rcases (show dc = ((8 : Int), false) ∨ dc = ((-8 : Int), false) ∨ dc = ((1 : Int), true) ∨
          dc = ((-1 : Int), true) ∨ dc = ((9 : Int), true) ∨ dc = ((7 : Int), true) ∨
          dc = ((-7 : Int), true) ∨ dc = ((-9 : Int), true)
          by simpa [queenDirs, rookDirs, bishopDirs] using hdc) with
        rfl | rfl | rfl | rfl | rfl | rfl | rfl | rfl
      · exact ⟨'r', by decide, Or.inr h6, by decide, by decide⟩
      · exact ⟨'r', by decide, Or.inr h6, by decide, by decide⟩
      · exact ⟨'r', by decide, Or.inr h6, by decide, by decide⟩
      · exact ⟨'r', by decide, Or.inr h6, by decide, by decide⟩
      · exact ⟨'b', by decide, Or.inr h6, by decide, by decide⟩
      · exact ⟨'b', by decide, Or.inr h6, by decide, by decide⟩
      · exact ⟨'b', by decide, Or.inr h6, by decide, by decide⟩
      · exact ⟨'b', by decide, Or.inr h6, by decide, by decide⟩
    · exact king_capture_attacked gs _ p hsq hp h7 (by simpa using h1) m hmem c hcap
    · cases hmem

/-- Witness for C5: on the decoded c5 position, white's pawn capture
e4xd5 has its destination reported as attacked by white. -/
theorem c5_witness :
    isSquareAttacked c5WitnessState
      (({ fromSq := 28, toSq := 35, piece := ⟨'p', Color.w⟩,
          captured := some ⟨'p', Color.b⟩ } : Move).toSq) c5WitnessState.turn = true :=
  c5_capture_attacked c5WitnessState
    { fromSq := 28, toSq := 35, piece := ⟨'p', Color.w⟩, captured := some ⟨'p', Color.b⟩ }
    ⟨'p', Color.b⟩ (by decide) (by decide)

end Chess

namespace Chess

/-- `digitChar` of a value up to 9 is a decimal digit with the same value,
and is neither a space nor a slash. -/
theorem digitChar_spec (e : Nat) (he : e ≤ 9) :
    isDigitChar (digitChar e) = true ∧ digitVal (digitChar e) = e ∧
      digitChar e ≠ ' ' ∧ digitChar e ≠ '/' := by
  interval_cases e <;> exact ⟨by decide, by decide, by decide, by decide⟩

/-- A decimal digit character is not a space, slash or minus sign. -/
theorem isDigit_ne (c : Char) (h : isDigitChar c = true) :
    c ≠ ' ' ∧ c ≠ '/' ∧ c ≠ '-' := by
  refine ⟨?_, ?_, ?_⟩ <;> rintro rfl <;> exact absurd h (by decide)

/-- For a piece with a lowercase standard type letter, `pieceChar` is not a
digit, lowercases back to the type, decodes back to the piece's color, and
is neither a space nor a slash. -/
theorem pieceChar_spec (q : Piece) (ht : q.type ∈ (['p','n','b','r','q','k'] : List Char)) :
    isDigitChar (pieceChar q) = false ∧ (pieceChar q).toLower = q.type ∧
      (if pieceChar q = (pieceChar q).toUpper then Color.w else Color.b) = q.color ∧
      pieceChar q ≠ ' ' ∧ pieceChar q ≠ '/' := by
  rcases q with ⟨t, c⟩
  simp only [List.mem_cons, List.not_mem_nil, or_false] at ht
  rcases ht with rfl | rfl | rfl | rfl | rfl | rfl <;> cases c <;>
    exact ⟨by decide, by decide, by decide, by decide, by decide⟩

/-- `split` on a string not containing the separator returns the single
segment. -/
theorem splitChar_no_sep (c : Char) : ∀ l : List Char, c ∉ l → splitChar c l = [l]
  | [], _ => rfl
  | x :: xs, h => by
      have hx : x ≠ c := fun e => h (e ▸ List.mem_cons_self x xs)
      have ih := splitChar_no_sep c xs (fun hm => h (List.mem_cons_of_mem x hm))
      simp only [splitChar, if_neg hx, ih]

/-- Splitting peels off a separator-free prefix as the first segment. -/
theorem splitChar_append (c : Char) : ∀ (a rest : List Char), c ∉ a →
    splitChar c (a ++ c :: rest) = a :: splitChar c rest
  | [], rest, _ => by simp [splitChar]
  | x :: xs, rest, h => by
      have hx : x ≠ c := fun e => h (e ▸ List.mem_cons_self x xs)
      have ih := splitChar_append c xs rest (fun hm => h (List.mem_cons_of_mem x hm))
      simp only [List.cons_append, splitChar, if_neg hx]
      rw [show xs.append (c :: rest) = xs ++ c :: rest from rfl, ih]

/-- `split` is a left inverse of `join` when no segment contains the
separator. -/
theorem joinChar_split (c : Char) : ∀ ls : List (List Char), ls ≠ [] →
    (∀ l ∈ ls, c ∉ l) → splitChar c (joinChar c ls) = ls
  | [], h, _ => absurd rfl h
  | [x], _, hn => splitChar_no_sep c x (hn x (List.mem_cons_self x []))
  | x :: y :: ys, _, hn => by
      have ih := joinChar_split c (y :: ys) (by simp)
        (fun l hl => hn l (List.mem_cons_of_mem x hl))
      show splitChar c (x ++ c :: joinChar c (y :: ys)) = _
      rw [splitChar_append c x _ (hn x (List.mem_cons_self x _)), ih]

/-- Every character of a joined list comes from the separator or from one
of the segments. -/
theorem mem_joinChar (c d : Char) : ∀ ls : List (List Char), d ∈ joinChar c ls →
    d = c ∨ ∃ l ∈ ls, d ∈ l
  | [], h => absurd h (List.not_mem_nil d)
  | [x], h => Or.inr ⟨x, List.mem_cons_self x [], h⟩
  | x :: y :: ys, h => by
      rcases List.mem_append.mp h with h1 | h2
      · exact Or.inr ⟨x, List.mem_cons_self x _, h1⟩
      · rcases List.mem_cons.mp h2 with rfl | h3
        · exact Or.inl rfl
        · rcases mem_joinChar c d (y :: ys) h3 with h4 | ⟨l, hl, hdl⟩
          · exact Or.inl h4
          · exact Or.inr ⟨l, List.mem_cons_of_mem x hl, hdl⟩

/-- The decimal rendering is never empty, whatever the fuel. -/
theorem natDigitsF_ne_nil : ∀ (fuel n : Nat), natDigitsF fuel n ≠ []
  | 0, n => by simp [natDigitsF]
  | fuel + 1, n => by
      simp only [natDigitsF]
      split
      · simp
      · simp

/-- The decimal rendering of a natural number is never empty. -/
theorem natDigits_ne_nil (n : Nat) : natDigits n ≠ [] := natDigitsF_ne_nil n n

/-- Every character of the fuelled decimal rendering is a digit. -/
theorem natDigitsF_digits : ∀ (fuel n : Nat), ∀ ch ∈ natDigitsF fuel n, isDigitChar ch = true
  | 0, n => by
      intro ch hch
      simp only [natDigitsF, List.mem_singleton] at hch
      subst hch
      exact (digitChar_spec (n % 10) (by omega)).1
  | fuel + 1, n => by
      intro ch hch
      simp only [natDigitsF] at hch
      split at hch
      · rename_i h
        simp only [List.mem_singleton] at hch
        subst hch
        exact (digitChar_spec n (by omega)).1
      · rcases List.mem_append.mp hch with h1 | h2
        · exact natDigitsF_digits fuel (n / 10) ch h1
        · simp only [List.mem_singleton] at h2
          subst h2
          exact (digitChar_spec (n % 10) (by omega)).1

/-- Every character of the decimal rendering is a digit. -/
theorem natDigits_digits (n : Nat) : ∀ ch ∈ natDigits n, isDigitChar ch = true :=
  natDigitsF_digits n n

/-- `parseNat` consumes a trailing digit as the low-order place. -/
theorem parseNat_append (a : List Char) (d : Char) :
    parseNat (a ++ [d]) = parseNat a * 10 + digitVal d := by
  unfold parseNat
  rw [List.foldl_append]
  rfl

/-- Parsing inverts the fuelled decimal rendering when the fuel suffices. -/
theorem parseNat_natDigitsF : ∀ (fuel n : Nat), n ≤ fuel → parseNat (natDigitsF fuel n) = n
  | 0, n, hn => by
      have h0 : n = 0 := by omega
      subst h0
      decide
  | fuel + 1, n, hn => by
      simp only [natDigitsF]
      split
      · rename_i h
        have hd := (digitChar_spec n (by omega)).2.1
        simp [parseNat, hd]
      · rename_i h
        rw [parseNat_append, parseNat_natDigitsF fuel (n / 10) (by omega),
          (digitChar_spec (n % 10) (by omega)).2.1]
        omega

/-- Parsing inverts decimal rendering. -/
theorem parseNat_natDigits (n : Nat) : parseNat (natDigits n) = n :=
  parseNat_natDigitsF n n (Nat.le_refl n)

/-- On an all-digit string, the integer parse agrees with the natural
parse (no sign branch is taken). -/
theorem parseIntJS_digits (l : List Char) (h : ∀ c ∈ l, isDigitChar c = true) :
    parseIntJS l = (parseNat l : Int) := by
  rcases l with _ | ⟨c, rest⟩
  · rfl
  · have hc : c ≠ '-' := (isDigit_ne c (h c (List.mem_cons_self c rest))).2.2
    unfold parseIntJS
    split
    · rename_i heq
      injection heq with h1 h2
      exact absurd h1 hc
    · rfl

/-- Encoding a square in `0..63` to algebraic notation and decoding it
back is the identity; the name is never `"-"` and contains no space. -/
theorem square_alg_spec (sq : Int) (h0 : 0 ≤ sq) (h1 : sq < 64) :
    algebraicToSquare (squareToAlgebraic sq) = sq ∧ squareToAlgebraic sq ≠ ['-'] ∧
      ∀ c ∈ squareToAlgebraic sq, c ≠ ' ' := by
  interval_cases sq <;> exact ⟨by decide, by decide, by decide⟩

end Chess

namespace Chess


/-- `boardGet` after a `List.set` at an in-range natural index. -/
theorem boardGet_set_nat (b : List (Option Piece)) (n : Nat) (v : Option Piece)
    (hn : n < b.length) (i : Int) :
    boardGet (b.set n v) i = if i = (n : Int) then v else boardGet b i := by
  have h1 : b.set n v = boardSet b (n : Int) v := by
    unfold boardSet
    rw [if_neg (by omega : ¬ (n : Int) < 0), Int.toNat_natCast]
  rw [h1, boardGet_boardSet]
  by_cases hi : i = (n : Int)
  · rw [if_pos ⟨hi.symm, by omega, by exact_mod_cast hn⟩, if_pos hi]
  · rw [if_neg (fun h => hi h.1.symm), if_neg hi]

/-- `List.set` at a natural index does not change other squares (no bound
on the index is needed: an out-of-range set is a no-op). -/
theorem boardGet_set_nat_ne (b : List (Option Piece)) (n : Nat) (v : Option Piece)
    (i : Int) (hi : i ≠ (n : Int)) : boardGet (b.set n v) i = boardGet b i := by
  unfold boardGet
  by_cases h0 : i < 0
  · rw [if_pos h0, if_pos h0]
  · rw [if_neg h0, if_neg h0, List.getD_eq_getElem?_getD, List.getD_eq_getElem?_getD,
      List.getElem?_set, if_neg (by omega : ¬ n = i.toNat)]

/-- A successful `boardGet` read is a member of the board list. -/
theorem boardGet_mem (b : List (Option Piece)) (i : Int) (q : Piece)
    (h : boardGet b i = some q) : some q ∈ b := by
  unfold boardGet at h
  split at h
  · exact absurd h (by simp)
  · rw [List.getD_eq_getElem?_getD] at h
    rcases hg : b[i.toNat]? with _ | op
    · rw [hg] at h
      exact absurd h (by simp)
    · rw [hg] at h
      simp only [Option.getD_some] at h
      subst h
      obtain ⟨hlt, hgt⟩ := List.getElem?_eq_some.mp hg
      exact hgt ▸ List.getElem_mem hlt

/-- Reads outside the board are `none`. -/
theorem boardGet_oob (b : List (Option Piece)) (i : Int)
    (h : i < 0 ∨ (b.length : Int) ≤ i) : boardGet b i = none := by
  unfold boardGet
  rcases h with h | h
  · rw [if_pos h]
  · rw [if_neg (by omega), List.getD_eq_getElem?_getD,
      List.getElem?_eq_none (by omega : b.length ≤ i.toNat)]
    rfl

/-- Every read of the empty board is `none`. -/
theorem boardGet_empty (i : Int) : boardGet makeEmptyBoard i = none := by
  unfold boardGet makeEmptyBoard
  split
  · rfl
  · rw [List.getD_eq_getElem?_getD, List.getElem?_replicate]
    split <;> rfl

/-- `decodeRowFold` only rewrites squares, never the board's length. -/
theorem length_decodeRowFold (r : Nat) : ∀ (l : List Char) (file : Nat)
    (b : List (Option Piece)), (decodeRowFold r l file b).length = b.length
  | [], _, _ => rfl
  | ch :: rest, file, b => by
      simp only [decodeRowFold]
      split
      · exact length_decodeRowFold r rest _ b
      · rw [length_decodeRowFold r rest _ _, List.length_set]

/-- Decoding the terminal digit (if any) of an encoded rank consumes it
without writing. -/
theorem decode_end (r : Nat) (empty file : Nat) (b : List (Option Piece))
    (he : empty ≤ 9) :
    decodeRowFold r (encodeRankAux [] empty) file b = b := by
  rcases Nat.eq_zero_or_pos empty with rfl | he0
  · rfl
  · have hd := digitChar_spec empty he
    have henc : encodeRankAux ([] : List (Option Piece)) empty = [digitChar empty] := by
      simp only [encodeRankAux, if_pos he0]
    rw [henc]
    simp only [decodeRowFold, hd.1, if_true]

/-- Decoding an encoded rank beginning with a piece cell: the pending
empty-run digit (if any) is consumed and the piece is written back at the
square it was read from. -/
theorem decode_step (r : Nat) (q : Piece) (rest : List (Option Piece))
    (empty file : Nat) (b : List (Option Piece)) (he : empty ≤ 9)
    (hq : q.type ∈ (['p','n','b','r','q','k'] : List Char)) :
    decodeRowFold r (encodeRankAux (some q :: rest) empty) file b =
      decodeRowFold r (encodeRankAux rest 0) (file + empty + 1)
        (b.set (r * 8 + (file + empty)) (some q)) := by
  have hps := pieceChar_spec q hq
  have hpc : (⟨(pieceChar q).toLower,
      (if pieceChar q = (pieceChar q).toUpper then Color.w else Color.b)⟩ : Piece) = q := by
    obtain ⟨t, c⟩ := q
    simp only [Piece.mk.injEq]
    exact ⟨hps.2.1, hps.2.2.1⟩
  have hcore : ∀ f2 : Nat, decodeRowFold r (pieceChar q :: encodeRankAux rest 0) f2 b =
      decodeRowFold r (encodeRankAux rest 0) (f2 + 1) (b.set (r * 8 + f2) (some q)) := by
    intro f2
    simp only [decodeRowFold, hps.1, Bool.false_eq_true, if_false]
    rw [hpc]
  have henc : encodeRankAux (some q :: rest) empty =
      (if 0 < empty then [digitChar empty] else []) ++ pieceChar q :: encodeRankAux rest 0 := by
    simp only [encodeRankAux]
  rw [henc]
  rcases Nat.eq_zero_or_pos empty with rfl | he0
  · rw [if_neg (by omega), List.nil_append, hcore file]
    simp only [Nat.add_zero]
  · have hd := digitChar_spec empty he
    rw [if_pos he0, List.singleton_append]
    simp only [decodeRowFold, hd.1, if_true, hd.2.1]
    exact hcore (file + empty)

/-- The castling-rights field of a FEN string decodes back to the rights
it was produced from, and contains no space. -/
theorem castle_roundtrip (cr : CastlingRights) :
    (⟨decide ('K' ∈ castlePartOf cr), decide ('Q' ∈ castlePartOf cr),
      decide ('k' ∈ castlePartOf cr), decide ('q' ∈ castlePartOf cr)⟩ : CastlingRights) = cr ∧
      ∀ c ∈ castlePartOf cr, c ≠ ' ' := by
  obtain ⟨a, b, c, d⟩ := cr
  cases a <;> cases b <;> cases c <;> cases d <;> exact ⟨by decide, by decide⟩

end Chess
namespace Chess

/-- Every character of an encoded rank is a digit or a piece letter, hence
neither a space nor a slash. -/
theorem encodeRank_chars : ∀ (cells : List (Option Piece)) (empty : Nat),
    empty + cells.length ≤ 8 →
    (∀ op ∈ cells, ∀ q ∈ op, q.type ∈ (['p','n','b','r','q','k'] : List Char)) →
    ∀ ch ∈ encodeRankAux cells empty, ch ≠ ' ' ∧ ch ≠ '/'
  | [], empty, hb, _ => by
      intro ch hch
      simp only [encodeRankAux] at hch
      split at hch
      · simp only [List.mem_singleton] at hch
        subst hch
        have hd := digitChar_spec empty (by simp only [List.length_nil] at hb; omega)
        exact ⟨hd.2.2.1, hd.2.2.2⟩
      · cases hch
  | none :: rest, empty, hb, hwf => by
      intro ch hch
      exact encodeRank_chars rest (empty + 1)
        (by simp only [List.length_cons] at hb; omega)
        (fun op hop => hwf op (List.mem_cons_of_mem _ hop)) ch hch
  | some q :: rest, empty, hb, hwf => by
      intro ch hch
      have hq := hwf (some q) (List.mem_cons_self _ _) q rfl
      have henc : encodeRankAux (some q :: rest) empty =
          (if 0 < empty then [digitChar empty] else []) ++
            pieceChar q :: encodeRankAux rest 0 := by
        simp only [encodeRankAux]
      rw [henc] at hch
      rcases List.mem_append.mp hch with h1 | h2
      · split at h1
        · simp only [List.mem_singleton] at h1
          subst h1
          have hd := digitChar_spec empty (by simp only [List.length_cons] at hb; omega)
          exact ⟨hd.2.2.1, hd.2.2.2⟩
        · cases h1
      · rcases List.mem_cons.mp h2 with rfl | h3
        · have hps := pieceChar_spec q hq
          exact ⟨hps.2.2.2.1, hps.2.2.2.2⟩
        · exact encodeRank_chars rest 0
            (by simp only [List.length_cons] at hb; omega)
            (fun op hop => hwf op (List.mem_cons_of_mem _ hop)) ch h3

/-- Decoding an encoded rank leaves every square outside the rank's window
unchanged. -/
theorem decodeRow_frame (r : Nat) : ∀ (cells : List (Option Piece)) (empty file : Nat),
    empty + file + cells.length ≤ 8 →
    (∀ op ∈ cells, ∀ q ∈ op, q.type ∈ (['p','n','b','r','q','k'] : List Char)) →
    ∀ (b : List (Option Piece)) (i : Int),
    (i < ((r * 8 + file + empty : Nat) : Int) ∨
      ((r * 8 + file + empty + cells.length : Nat) : Int) ≤ i) →
    boardGet (decodeRowFold r (encodeRankAux cells empty) file b) i = boardGet b i
  | [], empty, file, hb, _, b, i, _ => by
      rw [decode_end r empty file b (by simp only [List.length_nil] at hb; omega)]
  | none :: rest, empty, file, hb, hwf, b, i, hout => by
      show boardGet (decodeRowFold r (encodeRankAux rest (empty + 1)) file b) i = _
      exact decodeRow_frame r rest (empty + 1) file
        (by simp only [List.length_cons] at hb; omega)
        (fun op hop => hwf op (List.mem_cons_of_mem _ hop)) b i
        (by simp only [List.length_cons] at hout; rcases hout with h | h <;> [left; right] <;>
          push_cast at h ⊢ <;> omega)
  | some q :: rest, empty, file, hb, hwf, b, i, hout => by
      rw [decode_step r q rest empty file b (by simp only [List.length_cons] at hb; omega)
        (hwf (some q) (List.mem_cons_self _ _) q rfl)]
      rw [decodeRow_frame r rest 0 (file + empty + 1)
        (by simp only [List.length_cons] at hb; omega)
        (fun op hop => hwf op (List.mem_cons_of_mem _ hop)) _ i
        (by simp only [List.length_cons] at hout; rcases hout with h | h <;> [left; right] <;>
          push_cast at h ⊢ <;> omega)]
      exact boardGet_set_nat_ne b _ _ i
        (by simp only [List.length_cons] at hout; rcases hout with h | h <;>
          push_cast at h ⊢ <;> omega)

/-- Decoding an encoded rank writes each occupied cell back at the square
it was read from, and leaves unoccupied cells to the underlying board. -/
theorem decodeRow_content (r : Nat) (hr : r < 8) : ∀ (cells : List (Option Piece)) (empty file : Nat),
    empty + file + cells.length ≤ 8 →
    (∀ op ∈ cells, ∀ q ∈ op, q.type ∈ (['p','n','b','r','q','k'] : List Char)) →
    ∀ (b : List (Option Piece)), b.length = 64 → ∀ j : Nat, j < cells.length →
    boardGet (decodeRowFold r (encodeRankAux cells empty) file b)
        ((r * 8 + file + empty + j : Nat) : Int) =
      if (cells.getD j none).isSome = true then cells.getD j none
      else boardGet b ((r * 8 + file + empty + j : Nat) : Int)
  | [], _, _, _, _, _, _, j, hj => absurd hj (by simp)
  | none :: rest, empty, file, hb, hwf, b, hlen, j, hj => by
      show boardGet (decodeRowFold r (encodeRankAux rest (empty + 1)) file b) _ = _
      rcases j with _ | j'
      · rw [if_neg (by simp)]
        exact decodeRow_frame r rest (empty + 1) file
          (by simp only [List.length_cons] at hb; omega)
          (fun op hop => hwf op (List.mem_cons_of_mem _ hop)) b _
          (by left; push_cast; omega)
      · have hcast : (r * 8 + file + empty + (j' + 1) : Nat) =
            (r * 8 + file + (empty + 1) + j' : Nat) := by omega
        rw [hcast, List.getD_cons_succ]
        exact decodeRow_content r hr rest (empty + 1) file
          (by simp only [List.length_cons] at hb; omega)
          (fun op hop => hwf op (List.mem_cons_of_mem _ hop)) b hlen j'
          (by simp only [List.length_cons] at hj; omega)
  | some q :: rest, empty, file, hb, hwf, b, hlen, j, hj => by
      rw [decode_step r q rest empty file b (by simp only [List.length_cons] at hb; omega)
        (hwf (some q) (List.mem_cons_self _ _) q rfl)]
      rcases j with _ | j'
      · rw [if_pos (show (((some q :: rest).getD 0 none).isSome = true) from rfl)]
        rw [decodeRow_frame r rest 0 (file + empty + 1)
          (by simp only [List.length_cons] at hb; omega)
          (fun op hop => hwf op (List.mem_cons_of_mem _ hop)) _ _
          (by left; push_cast; omega)]
        rw [show ((r * 8 + file + empty + 0 : Nat) : Int) =
            ((r * 8 + (file + empty) : Nat) : Int) from by push_cast; ring]
        rw [boardGet_set_nat b _ _ (by omega) _, if_pos rfl]
        rfl
      · have hcast : (r * 8 + file + empty + (j' + 1) : Nat) =
            (r * 8 + (file + empty + 1) + 0 + j' : Nat) := by omega
        rw [hcast, List.getD_cons_succ]
        rw [decodeRow_content r hr rest 0 (file + empty + 1)
          (by simp only [List.length_cons] at hb; omega)
          (fun op hop => hwf op (List.mem_cons_of_mem _ hop)) _
          (by rw [List.length_set]; exact hlen) j'
          (by simp only [List.length_cons] at hj; omega)]
      -- the fall-through read goes past the square just written
        rw [boardGet_set_nat_ne b _ _ _ (by push_cast; omega)]

end Chess
namespace Chess

/-- A rank slice, written out as its eight squares. -/
theorem rowCells_eq (b : List (Option Piece)) (r : Nat) :
    rowCells b r = [boardGet b ((r : Int) * 8 + 0), boardGet b ((r : Int) * 8 + 1),
      boardGet b ((r : Int) * 8 + 2), boardGet b ((r : Int) * 8 + 3),
      boardGet b ((r : Int) * 8 + 4), boardGet b ((r : Int) * 8 + 5),
      boardGet b ((r : Int) * 8 + 6), boardGet b ((r : Int) * 8 + 7)] := rfl

/-- A rank slice has eight cells. -/
theorem rowCells_length (b : List (Option Piece)) (r : Nat) : (rowCells b r).length = 8 := by
  rw [rowCells_eq]
  rfl

/-- The `j`-th cell of a rank slice is the board square at that rank and
file. -/
theorem rowCells_getD (b : List (Option Piece)) (r j : Nat) (hj : j < 8) :
    (rowCells b r).getD j none = boardGet b ((r : Int) * 8 + (j : Int)) := by
  rw [rowCells_eq]
  interval_cases j <;> rfl

/-- Rank slices of a board with valid piece letters have valid piece
letters. -/
theorem rowCells_wf (b : List (Option Piece))
    (hwf : ∀ op ∈ b, ∀ q ∈ op, q.type ∈ (['p','n','b','r','q','k'] : List Char)) (r : Nat) :
    ∀ op ∈ rowCells b r, ∀ q ∈ op, q.type ∈ (['p','n','b','r','q','k'] : List Char) := by
  intro op hop q hq
  rcases List.mem_map.mp hop with ⟨f, _, rfl⟩
  rw [Option.mem_def] at hq
  exact hwf _ (boardGet_mem _ _ _ hq) q (Option.mem_def.mpr rfl)

/-- Decoding the encoded rank `rr` of a 64-square board over an underlying
board reproduces exactly the occupied squares of that rank. -/
theorem decodeRank_peel (g : List (Option Piece))
    (hwf : ∀ op ∈ g, ∀ q ∈ op, q.type ∈ (['p','n','b','r','q','k'] : List Char))
    (rr : Nat) (hrr : rr < 8) (b : List (Option Piece)) (hlen : b.length = 64) (i : Int) :
    boardGet (decodeRowFold rr (encodeRankAux (rowCells g rr) 0) 0 b) i =
      if ((rr : Int) * 8 ≤ i ∧ i < (rr : Int) * 8 + 8) ∧ (boardGet g i).isSome = true
      then boardGet g i else boardGet b i := by
  by_cases hin : (rr : Int) * 8 ≤ i ∧ i < (rr : Int) * 8 + 8
  · obtain ⟨h1, h2⟩ := hin
    obtain ⟨j, hj8, rfl⟩ : ∃ j : Nat, j < 8 ∧ i = ((rr * 8 + 0 + 0 + j : Nat) : Int) :=
      ⟨(i - (rr : Int) * 8).toNat, by omega, by push_cast; omega⟩
    have hc := decodeRow_content rr hrr (rowCells g rr) 0 0
      (by rw [rowCells_length]) (rowCells_wf g hwf rr) b hlen j
      (by rw [rowCells_length]; exact hj8)
    rw [hc, rowCells_getD g rr j hj8]
    rw [show ((rr : Int) * 8 + (j : Int)) = ((rr * 8 + 0 + 0 + j : Nat) : Int) from by
      push_cast; ring]
    split_ifs with hA hB hB
    · rfl
    · exact absurd ⟨⟨h1, h2⟩, hA⟩ hB
    · exact absurd hB.2 hA
    · rfl
  · rw [decodeRow_frame rr (rowCells g rr) 0 0 (by rw [rowCells_length]) (rowCells_wf g hwf rr)
      b i (by rw [rowCells_length]; push_cast; omega)]
    rw [if_neg (fun h => hin h.1)]

/-- Decoding all eight encoded ranks of a 64-square board from the empty
board reproduces the board. -/
theorem decoded_board_eq (g : List (Option Piece)) (hb : g.length = 64)
    (hwf : ∀ op ∈ g, ∀ q ∈ op, q.type ∈ (['p','n','b','r','q','k'] : List Char)) :
    decodeRanks ((List.range 8).map fun k => encodeRankAux (rowCells g (7 - k)) 0)
      (List.range 8) makeEmptyBoard = .ok g := by
  show Except.ok (decodeRowFold 7 (encodeRankAux (rowCells g 7) 0) 0
    (decodeRowFold 6 (encodeRankAux (rowCells g 6) 0) 0
    (decodeRowFold 5 (encodeRankAux (rowCells g 5) 0) 0
    (decodeRowFold 4 (encodeRankAux (rowCells g 4) 0) 0
    (decodeRowFold 3 (encodeRankAux (rowCells g 3) 0) 0
    (decodeRowFold 2 (encodeRankAux (rowCells g 2) 0) 0
    (decodeRowFold 1 (encodeRankAux (rowCells g 1) 0) 0
    (decodeRowFold 0 (encodeRankAux (rowCells g 0) 0) 0 makeEmptyBoard)))))))) = Except.ok g
  refine congrArg Except.ok ?_
  apply board_ext
  · simp only [length_decodeRowFold, makeEmptyBoard, List.length_replicate, hb]
  · intro j
    by_cases hjr : 0 ≤ j ∧ j < 64
    · rw [decodeRank_peel g hwf 7 (by omega) _
          (by simp only [length_decodeRowFold, makeEmptyBoard, List.length_replicate]) j,
        decodeRank_peel g hwf 6 (by omega) _
          (by simp only [length_decodeRowFold, makeEmptyBoard, List.length_replicate]) j,
        decodeRank_peel g hwf 5 (by omega) _
          (by simp only [length_decodeRowFold, makeEmptyBoard, List.length_replicate]) j,
        decodeRank_peel g hwf 4 (by omega) _
          (by simp only [length_decodeRowFold, makeEmptyBoard, List.length_replicate]) j,
        decodeRank_peel g hwf 3 (by omega) _
          (by simp only [length_decodeRowFold, makeEmptyBoard, List.length_replicate]) j,
        decodeRank_peel g hwf 2 (by omega) _
          (by simp only [length_decodeRowFold, makeEmptyBoard, List.length_replicate]) j,
        decodeRank_peel g hwf 1 (by omega) _
          (by simp only [length_decodeRowFold, makeEmptyBoard, List.length_replicate]) j,
        decodeRank_peel g hwf 0 (by omega) _
          (by simp only [length_decodeRowFold, makeEmptyBoard, List.length_replicate]) j]
      by_cases hS : (boardGet g j).isSome = true
      · simp only [hS, and_true]
        split_ifs with h7 h6 h5 h4 h3 h2 h1 h0 <;> try rfl
        exfalso
        push_cast at h7 h6 h5 h4 h3 h2 h1 h0
        omega
      · have hnone : boardGet g j = none := by
          rcases hgn : boardGet g j with _ | v
          · rfl
          · rw [hgn] at hS
            exact absurd rfl hS
        simp only [hnone, Option.isSome_none, Bool.false_eq_true, and_false, if_false]
        exact boardGet_empty j
    · rw [boardGet_oob g j (by omega),
        boardGet_oob _ j (by
          simp only [length_decodeRowFold, makeEmptyBoard, List.length_replicate]
          omega)]

end Chess
namespace Chess

/-- `fenToGameState` on a six-field FEN string, expressed through the
split fields. -/
theorem fenToGameState_parts (fen : String) (p0 p1 p2 p3 p4 p5 : List Char)
    (hsplit : splitChar ' ' fen.data = [p0, p1, p2, p3, p4, p5]) :
    fenToGameState fen =
      (match decodeRanks (splitChar '/' p0) (List.range 8) makeEmptyBoard with
        | .error e => .error e
        | .ok board => .ok ⟨board, (if p1 = ['w'] then .w else .b),
            ⟨'K' ∈ p2, 'Q' ∈ p2, 'k' ∈ p2, 'q' ∈ p2⟩,
            (if p3 = ['-'] then none else some (algebraicToSquare p3)),
            (if p4 = [] then 0 else parseNat p4),
            (if p5 = [] then 1 else parseIntJS p5), []⟩) := by
  unfold fenToGameState
  rw [hsplit]
  rfl

set_option maxHeartbeats 2000000 in
/-- C4: FEN round-trip. (a) Decoding the standard initial position string
and re-serializing it returns the identical string. (b) For every game
state with a 64-square board, standard lowercase piece type letters, an
en-passant target (if any) on the board and a nonnegative fullmove
counter — all invariants of positions reached by legal play — serializing
with `gameStateToFEN` and decoding with `fenToGameState` succeeds and
returns a state equal to the original in board layout, side to move,
castling rights, en-passant target, halfmove clock and fullmove number
(the decoder starts the move history fresh). -/
theorem c4_fen_round_trip :
    ((fenToGameState initialFEN).toOption.map gameStateToFEN = some initialFEN) ∧
    ∀ gs : GameState, gs.board.length = 64 →
      (∀ op ∈ gs.board, ∀ q ∈ op, q.type ∈ (['p','n','b','r','q','k'] : List Char)) →
      (∀ sq ∈ gs.enPassant, 0 ≤ sq ∧ sq < 64) →
      0 ≤ gs.fullmoveNumber →
      fenToGameState (gameStateToFEN gs) = Except.ok { gs with history := [] } := by
  constructor
  · decide
  · intro gs hb hwf hep hfm
    have hrowswf := rowCells_wf gs.board hwf
    have hboardnm : ' ' ∉ joinChar '/' ((List.range 8).map fun k =>
        encodeRankAux (rowCells gs.board (7 - k)) 0) := by
      intro hm
      rcases mem_joinChar '/' ' ' _ hm with h | ⟨l, hl, hcl⟩
      · exact absurd h (by decide)
      · rcases List.mem_map.mp hl with ⟨k, _, rfl⟩
        exact (encodeRank_chars (rowCells gs.board (7 - k)) 0
          (by rw [rowCells_length]) (hrowswf _) ' ' hcl).1 rfl
    have hturnnm : ' ' ∉ (if gs.turn = Color.w then ['w'] else ['b']) := by
      split <;> decide
    have hcastle := castle_roundtrip gs.castling
    have hcastlenm : ' ' ∉ castlePartOf gs.castling := fun hm => hcastle.2 ' ' hm rfl
    have hepnm : ' ' ∉ (match gs.enPassant with
        | none => ['-'] | some sq => squareToAlgebraic sq) := by
      rcases hE : gs.enPassant with _ | sq
      · decide
      · intro hm
        exact (square_alg_spec sq (hep sq hE).1 (hep sq hE).2).2.2 ' ' hm rfl
    have hhalfnm : ' ' ∉ natDigits gs.halfmoveClock := fun hm =>
      (isDigit_ne ' ' (natDigits_digits _ ' ' hm)).1 rfl
    have hfull : intDigits gs.fullmoveNumber = natDigits gs.fullmoveNumber.toNat := by
      unfold intDigits
      rw [if_neg (by omega)]
    have hfullnm : ' ' ∉ intDigits gs.fullmoveNumber := by
      rw [hfull]
      exact fun hm => (isDigit_ne ' ' (natDigits_digits _ ' ' hm)).1 rfl
    have hsplitChars : splitChar ' ' (gameStateToFEN gs).data =
        [joinChar '/' ((List.range 8).map fun k =>
           encodeRankAux (rowCells gs.board (7 - k)) 0),
         (if gs.turn = Color.w then ['w'] else ['b']),
         castlePartOf gs.castling,
         (match gs.enPassant with | none => ['-'] | some sq => squareToAlgebraic sq),
         natDigits gs.halfmoveClock,
         intDigits gs.fullmoveNumber] := by
      show splitChar ' '
          (joinChar '/' ((List.range 8).map fun k =>
             encodeRankAux (rowCells gs.board (7 - k)) 0) ++
           ' ' :: (if gs.turn = Color.w then ['w'] else ['b']) ++
           ' ' :: castlePartOf gs.castling ++
           ' ' :: (match gs.enPassant with
                    | none => ['-'] | some sq => squareToAlgebraic sq) ++
           ' ' :: natDigits gs.halfmoveClock ++
           ' ' :: intDigits gs.fullmoveNumber) = _
      simp only [List.append_assoc, List.cons_append]
      rw [splitChar_append ' ' _ _ hboardnm, splitChar_append ' ' _ _ hturnnm,
        splitChar_append ' ' _ _ hcastlenm, splitChar_append ' ' _ _ hepnm,
        splitChar_append ' ' _ _ hhalfnm, splitChar_no_sep ' ' _ hfullnm]
    rw [fenToGameState_parts (gameStateToFEN gs) _ _ _ _ _ _ hsplitChars]
    have hslash : ∀ l ∈ (List.range 8).map (fun k =>
        encodeRankAux (rowCells gs.board (7 - k)) 0), '/' ∉ l := by
      intro l hl hm
      rcases List.mem_map.mp hl with ⟨k, _, rfl⟩
      exact (encodeRank_chars _ 0 (by rw [rowCells_length]) (hrowswf _) '/' hm).2 rfl
    rw [joinChar_split '/' _ (by simp) hslash, decoded_board_eq gs.board hb hwf]
    refine congrArg Except.ok ?_
    apply gameStateExt
    · rfl
    · show (if (if gs.turn = Color.w then ['w'] else ['b']) = ['w']
          then Color.w else Color.b) = gs.turn
      rcases hT : gs.turn with _ | _ <;> decide
    · exact hcastle.1
    · show (if (match gs.enPassant with
          | none => ['-'] | some sq => squareToAlgebraic sq) = ['-'] then none
          else some (algebraicToSquare (match gs.enPassant with
          | none => ['-'] | some sq => squareToAlgebraic sq))) = gs.enPassant
      rcases hE : gs.enPassant with _ | sq
      · rfl
      · obtain ⟨hs0, hs1⟩ := hep sq hE
        have hsa := square_alg_spec sq hs0 hs1
        show (if squareToAlgebraic sq = ['-'] then none
          else some (algebraicToSquare (squareToAlgebraic sq))) = some sq
        rw [if_neg hsa.2.1, hsa.1]
    · show (if natDigits gs.halfmoveClock = [] then 0
          else parseNat (natDigits gs.halfmoveClock)) = gs.halfmoveClock
      rw [if_neg (natDigits_ne_nil _), parseNat_natDigits]
    · show (if intDigits gs.fullmoveNumber = [] then 1
          else parseIntJS (intDigits gs.fullmoveNumber)) = gs.fullmoveNumber
      rw [hfull, if_neg (natDigits_ne_nil _),
        parseIntJS_digits _ (natDigits_digits _), parseNat_natDigits]
      omega
    · rfl

/-- Witness for C4: the decoded standard initial position serializes and
re-decodes to itself. -/
theorem c4_witness :
    fenToGameState (gameStateToFEN initGameState) =
      Except.ok { initGameState with history := [] } :=
  c4_fen_round_trip.2 initGameState (by decide) (by decide) (by decide) (by decide)

end Chess
